import Mathlib

/-! Verification of the TipToi memory-game compiler (`memory.py`).

The program compiles a memory-game definition (a list of pair identifiers,
a player bound, a language tag, ...) into a table of named scripts, each a
sequence of guarded command lines for the TipToi interpreter.  The Lean
definitions below are a shallow embedding of this generator: every f-string
of the source that builds a script line is mirrored, token by token, as a
`List Tok` whose elements carry the structured content of the corresponding
space-separated token (`$r==n?`, `$r:=e`, `J(target)`, `P(label)`, ...).
Names interpolated with Python `{n}` formatting are built with `pyNat`,
a decimal renderer for naturals. -/

namespace TTMemory

set_option maxRecDepth 10000

/-- Decimal digit character, as produced by Python string formatting. -/
def digitChar : Nat → Char
  | 0 => '0'
  | 1 => '1'
  | 2 => '2'
  | 3 => '3'
  | 4 => '4'
  | 5 => '5'
  | 6 => '6'
  | 7 => '7'
  | 8 => '8'
  | 9 => '9'
  | _ => '*'

/-- Inverse of `digitChar` on digits; `10` on non-digits. -/
def digitVal : Char → Nat
  | '0' => 0
  | '1' => 1
  | '2' => 2
  | '3' => 3
  | '4' => 4
  | '5' => 5
  | '6' => 6
  | '7' => 7
  | '8' => 8
  | '9' => 9
  | _ => 10

/-- Decimal rendering of `n` (most significant digit first); the first
argument is fuel, sufficient whenever `n < fuel`. -/
def natChars : Nat → Nat → List Char
  | 0, _ => []
  | fuel + 1, n =>
    if n < 10 then [digitChar n] else natChars fuel (n / 10) ++ [digitChar (n % 10)]

/-- The string `str(n)` of Python: decimal rendering of a natural. -/
def pyNat (n : Nat) : String := String.mk (natChars (n + 1) n)

/-- Decode a decimal digit list back to the natural it renders. -/
def decodeC (cs : List Char) : Nat := cs.foldl (fun a c => 10 * a + digitVal c) 0

/-- Right-hand side of a condition or command: integer literal or register. -/
inductive Expr where
  | const : Nat → Expr
  | reg : String → Expr
deriving DecidableEq

/-- A condition token `$r==e?`, `$r!=e?`, `$r<e?` or `$r>e?`. -/
inductive Cond where
  | ceq : String → Expr → Cond
  | cne : String → Expr → Cond
  | clt : String → Expr → Cond
  | cgt : String → Expr → Cond
deriving DecidableEq

/-- A command token `$r:=e`, `$r+=e`, `$r-=e`, `$r*=e`, `$r%=e`, `$r/=e`
or `T($r, n)`. -/
inductive Cmd where
  | cset : String → Expr → Cmd
  | cadd : String → Expr → Cmd
  | csub : String → Expr → Cmd
  | cmul : String → Expr → Cmd
  | cmod : String → Expr → Cmd
  | cdiv : String → Expr → Cmd
  | ctimer : String → Nat → Cmd
deriving DecidableEq

/-- One space-separated token of a script line. -/
inductive Tok where
  | cond : Cond → Tok
  | cmd : Cmd → Tok
  | jump : String → Tok
  | play : String → Tok
deriving DecidableEq

def Tok.isCond : Tok → Bool
  | .cond _ => true
  | _ => false

def Tok.isJump : Tok → Bool
  | .jump _ => true
  | _ => false

def Tok.isPlay : Tok → Bool
  | .play _ => true
  | _ => false

/-- Total number of tokens of a line (conditions + commands + jump + play). -/
def totalTokCount (l : List Tok) : Nat := l.length

/-- Number of non-condition tokens of a line (commands + jump + play). -/
def nonCondCount (l : List Tok) : Nat := (l.filter (fun t => !t.isCond)).length

/-- A script value of the generator: Python stores either a single line
(a plain string) or a list of lines. -/
inductive ScriptBody where
  | one : List Tok → ScriptBody
  | many : List (List Tok) → ScriptBody
deriving DecidableEq

/-- The lines of a script body. -/
def ScriptBody.lines : ScriptBody → List (List Tok)
  | .one l => [l]
  | .many ls => ls

/-- The game definition consumed by the generator (`memory.py` lines 40-59):
the ordered pair list, the player bound `maxPlayers`, the alternate-sounds
flag, the language tag and the welcome narration label. -/
structure GameDef where
  pairs : List String
  players : Nat
  alternativeSounds : Bool
  lang : String
  welcome : String

/-- `numPairs = len(pairs)` (line 63). -/
def numPairs (gd : GameDef) : Nat := gd.pairs.length

/-- `numCards = numPairs * 2` (line 64). -/
def numCards (gd : GameDef) : Nat := numPairs gd * 2

/-- Register name `c{i}` (also the name of card script `c{i}`). -/
def cReg (i : Nat) : String := "c" ++ pyNat i

/-- Register name `pairs{p}`. -/
def pairsReg (p : Nat) : String := "pairs" ++ pyNat p

/-- Script name `shuffle{i}`. -/
def shuffleName (i : Nat) : String := "shuffle" ++ pyNat i

/-- Script name `p{k}`. -/
def pName (k : Nat) : String := "p" ++ pyNat k

/-- Script name `restart{i}`. -/
def restartName (i : Nat) : String := "restart" ++ pyNat i

/-- `sound(card)` (lines 82-91): the narration label of card id `card`
(1-based).  Cards `1..numPairs` use `pairs[card-1]`, cards
`numPairs+1..numCards` use `pairs[numCards-card]`; with alternative sounds
the first half gets suffix `_a` and the second half `_b`. -/
def sound (gd : GameDef) (card : Nat) : String :=
  if card ≤ numPairs gd then
    let p := gd.pairs.getD (card - 1) ""
    if gd.alternativeSounds then p ++ "_a" else p
  else
    let p := gd.pairs.getD (numCards gd - card) ""
    if gd.alternativeSounds then p ++ "_b" else p

/-- The index into `pairs` from which `sound` derives the label of `card`. -/
def pairIdx (gd : GameDef) (card : Nat) : Nat :=
  if card ≤ numPairs gd then card - 1 else numCards gd - card

/-- The initialization line (line 79):
`$c0:=1 ... $c{numCards-1}:={numCards} $remaining:={numPairs} $player:=1`,
as the (register, literal value) list that the restart generator's
assignment regex (lines 188-191) extracts from it. -/
def initAssigns (gd : GameDef) : List (String × Nat) :=
  (List.range (numCards gd)).map (fun x => (cReg x, x + 1))
    ++ [("remaining", numPairs gd), ("player", 1)]

/-- Script `idle` (line 97): `$busy:=0`. -/
def idleLine : List Tok := [.cmd (.cset "busy" (.const 0))]

/-- Script `p{p}` (lines 100-107). -/
def playerScript (gd : GameDef) (p : Nat) : List (List Tok) :=
  [ [.cond (.ceq "players" (.const 0)), .cmd (.cset "players" (.const p)),
     .cmd (.cset "busy" (.const 1)), .cmd (.ctimer "random" 65535),
     .jump "shuffle", .play (gd.lang ++ "_shuffle")],
    [.cond (.ceq "busy" (.const 0)), .cond (.clt "players" (.const p)),
     .cmd (.cset "busy" (.const 1)), .jump "idle", .play (gd.lang ++ "_not_playing")] ]
  ++ (List.range (numPairs gd + 1)).map (fun pa =>
      [.cond (.ceq "busy" (.const 0)), .cond (.ceq (pairsReg p) (.const pa)),
       .cmd (.cset "busy" (.const 1)), .jump "idle",
       .play (gd.lang ++ "_pairs" ++ pyNat pa)])

/-- First line of script `q` (line 111): game not yet started. -/
def qNotStarted (gd : GameDef) : List Tok :=
  [.cond (.ceq "busy" (.const 0)), .cond (.ceq "players" (.const 0)),
   .cmd (.cset "busy" (.const 1)), .jump "idle", .play (gd.lang ++ "_not_started")]

/-- Ongoing-game line of script `q` for player `p` (line 113). -/
def qOngoing (gd : GameDef) (p : Nat) : List Tok :=
  [.cond (.ceq "busy" (.const 0)), .cond (.cgt "remaining" (.const 0)),
   .cond (.ceq "player" (.const p)), .cmd (.cset "busy" (.const 1)),
   .jump "idle", .play (gd.lang ++ "_player" ++ pyNat p)]

/-- Winner line of script `q` for player `p` (lines 115-120): fires when
`$pairs{p}` strictly exceeds `$pairs{o}` for every other player `o`. -/
def qWinner (gd : GameDef) (p : Nat) : List Tok :=
  .cond (.ceq "busy" (.const 0))
    :: ((List.range' 1 gd.players).filter (fun o => p != o)).map
        (fun o => Tok.cond (.cgt (pairsReg p) (.reg (pairsReg o))))
    ++ [.cmd (.cset "busy" (.const 1)), .jump "idle",
        .play (gd.lang ++ "_winner" ++ pyNat p)]

/-- Draw line of script `q` (line 122). -/
def qDraw (gd : GameDef) : List Tok :=
  [.cond (.ceq "busy" (.const 0)), .cmd (.cset "busy" (.const 1)),
   .jump "idle", .play (gd.lang ++ "_draw")]

/-- Script `q` (lines 110-123). -/
def qScript (gd : GameDef) : List (List Tok) :=
  [qNotStarted gd]
    ++ (List.range' 1 gd.players).map (qOngoing gd)
    ++ (List.range' 1 gd.players).map (qWinner gd)
    ++ [qDraw gd]

/-- Script `r` (line 128): restart when finished, else repeat the last card. -/
def rScript (gd : GameDef) : List (List Tok) :=
  [ [.cond (.ceq "busy" (.const 0)), .cond (.ceq "remaining" (.const 0)),
     .cmd (.cset "busy" (.const 1)), .jump "restart0", .play "nop"] ]
  ++ (List.range' 1 (numCards gd)).map (fun c =>
      [.cond (.ceq "busy" (.const 0)), .cond (.ceq "lastCard" (.const c)),
       .cmd (.cset "busy" (.const 1)), .jump "idle", .play (sound gd c)])

/-- Script `shuffle` (line 132): seed `$rnd` from the LCG and derive the
target position of the first card. -/
def shuffleEntry (gd : GameDef) : List Tok :=
  [.cmd (.cmul "random" (.const 25173)), .cmd (.cadd "random" (.const 13849)),
   .cmd (.cset "rnd" (.reg "random")), .cmd (.cset "pos" (.reg "rnd")),
   .cmd (.cmod "pos" (.const (numCards gd))), .cmd (.cdiv "rnd" (.const (numCards gd))),
   .jump "shuffle0", .play "nop"]

/-- Regeneration guard line of `shuffle{pos1}` (line 139): when `$rnd` is
below `10*(numCards-pos1-1)`, run a fresh LCG step and re-enter the state. -/
def shuffleGuard (gd : GameDef) (pos1 : Nat) : List Tok :=
  [.cond (.clt "rnd" (.const (10 * (numCards gd - pos1 - 1)))),
   .cmd (.cmul "random" (.const 25173)), .cmd (.cadd "random" (.const 13849)),
   .cmd (.cset "rnd" (.reg "random")), .jump (shuffleName pos1), .play "nop"]

/-- The three swap commands of line 145. -/
def swapCmds (pos1 pos2 : Nat) : List Tok :=
  [.cmd (.cset "t" (.reg (cReg pos1))), .cmd (.cset (cReg pos1) (.reg (cReg pos2))),
   .cmd (.cset (cReg pos2) (.reg "t"))]

/-- Candidate line of `shuffle{pos1}` for target offset `pos2`
(lines 142-152). -/
def shuffleSwapLine (gd : GameDef) (pos1 pos2 : Nat) : List Tok :=
  [Tok.cond (.ceq "pos" (.const (pos2 - pos1)))]
    ++ (if pos1 ≠ pos2 then swapCmds pos1 pos2 else [])
    ++ (if pos1 = numCards gd - 2 then
          [.play (gd.lang ++ "_start"), .jump "idle", .play (gd.lang ++ "_player1")]
        else
          [.cmd (.cset "pos" (.reg "rnd")),
           .cmd (.cmod "pos" (.const (numCards gd - pos1 - 1))),
           .cmd (.cdiv "rnd" (.const (numCards gd - pos1 - 1))),
           .jump (shuffleName (pos1 + 1)), .play "nop"])

/-- Script `shuffle{pos1}` (lines 134-153): the guard line (absent for the
final two positions), then one candidate line per `pos2 ∈ [pos1, numCards)`. -/
def shuffleState (gd : GameDef) (pos1 : Nat) : List (List Tok) :=
  (if pos1 < numCards gd - 2 then [shuffleGuard gd pos1] else [])
    ++ (List.range' pos1 (numCards gd - pos1)).map (shuffleSwapLine gd pos1)

/-- Script `c{c}` (lines 156-170): the per-card tap state machine. -/
def cardScript (gd : GameDef) (c : Nat) : List (List Tok) :=
  [ [.cond (.ceq "players" (.const 0)), .play (gd.lang ++ "_not_started")],
    [.cond (.ceq "remaining" (.const 0)), .play (gd.lang ++ "_finished")],
    [.cond (.ceq "busy" (.const 0)), .cond (.ceq (cReg c) (.const 0)),
     .cmd (.cset "busy" (.const 1)), .jump "idle", .play (gd.lang ++ "_empty")],
    [.cond (.ceq "busy" (.const 0)), .cond (.ceq "card1" (.const 0)),
     .cmd (.cset "card1" (.reg (cReg c))), .cmd (.cset "pos1" (.const c)),
     .cmd (.cset "lastCard" (.reg (cReg c))), .cmd (.cset "lastPos" (.const c)),
     .cmd (.cset "busy" (.const 1)), .jump "firstCard", .play "nop"],
    [.cond (.ceq "busy" (.const 0)), .cond (.ceq "card1" (.reg (cReg c))),
     .cmd (.cset "busy" (.const 1)), .jump "firstCard", .play "nop"],
    [.cond (.ceq "busy" (.const 0)), .cond (.cne "card1" (.reg (cReg c))),
     .cmd (.cset "card2" (.reg (cReg c))), .cmd (.cset "pos2" (.const c)),
     .cmd (.cset "lastCard" (.reg (cReg c))), .cmd (.cset "lastPos" (.const c)),
     .cmd (.cset "busy" (.const 1)), .jump "secondCard", .play "nop"] ]

/-- Script `firstCard` (line 173): read out the first selected card. -/
def firstCardScript (gd : GameDef) : List (List Tok) :=
  (List.range' 1 (numCards gd)).map (fun c =>
    [.cond (.ceq "card1" (.const c)), .jump "idle", .play (sound gd c)])

/-- Script `secondCard` (line 176): read out the second card and sum the ids. -/
def secondCardScript (gd : GameDef) : List (List Tok) :=
  (List.range' 1 (numCards gd)).map (fun c =>
    [.cond (.ceq "card2" (.const c)), .cmd (.cset "sum" (.reg "card1")),
     .cmd (.cadd "sum" (.reg "card2")), .cmd (.cset "card1" (.const 0)),
     .cmd (.cset "card2" (.const 0)), .jump "test", .play (sound gd c)])

/-- Script `test` (lines 179-180): on a match (`$sum == numCards+1`) score
the active player, else rotate to the next player. -/
def testScript (gd : GameDef) : List (List Tok) :=
  (List.range' 1 gd.players).map (fun p =>
    [.cond (.ceq "sum" (.const (numCards gd + 1))), .cond (.ceq "player" (.const p)),
     .cmd (.cadd (pairsReg p) (.const 1)), .cmd (.csub "remaining" (.const 1)),
     .jump "clear1", .play (gd.lang ++ "_match")])
  ++ [ [.cond (.ceq "player" (.reg "players")), .cmd (.cset "player" (.const 1)),
        .jump "idle", .play (gd.lang ++ "_player1")] ]
  ++ (List.range' 1 (gd.players - 1)).map (fun p =>
      [.cond (.ceq "player" (.const p)), .cmd (.cadd "player" (.const 1)),
       .jump "idle", .play (gd.lang ++ "_player" ++ pyNat (p + 1))])

/-- First line of script `clear1` (line 183): the game-over line, which
clears `$busy` and jumps to `q` while playing the finished narration. -/
def clear1FinLine (gd : GameDef) : List Tok :=
  [.cond (.ceq "remaining" (.const 0)), .cmd (.cset "busy" (.const 0)),
   .jump "q", .play (gd.lang ++ "_finished")]

/-- Script `clear1` (line 183). -/
def clear1Script (gd : GameDef) : List (List Tok) :=
  [clear1FinLine gd]
    ++ (List.range (numCards gd)).map (fun c =>
        [.cond (.ceq "pos1" (.const c)), .cmd (.cset (cReg c) (.const 0)),
         .cmd (.cset "pos1" (.const 0)), .jump "clear2", .play "nop"])

/-- Script `clear2` (line 184). -/
def clear2Script (gd : GameDef) : List (List Tok) :=
  (List.range (numCards gd)).map (fun c =>
    [.cond (.ceq "pos2" (.const c)), .cmd (.cset (cReg c) (.const 0)),
     .cmd (.cset "pos2" (.const 0)), .jump "idle", .play (gd.lang ++ "_continue")])

/-- The script table before the restart scripts are appended, in Python
dict insertion order (lines 97-184). -/
def preScripts (gd : GameDef) : List (String × ScriptBody) :=
  [("idle", .one idleLine)]
    ++ (List.range gd.players).map (fun i => (pName (i + 1), .many (playerScript gd (i + 1))))
    ++ [("q", .many (qScript gd)), ("r", .many (rScript gd)),
        ("shuffle", .one (shuffleEntry gd))]
    ++ (List.range (numCards gd - 1)).map (fun pos1 =>
        (shuffleName pos1, .many (shuffleState gd pos1)))
    ++ (List.range (numCards gd)).map (fun c => (cReg c, .many (cardScript gd c)))
    ++ [("firstCard", .many (firstCardScript gd)),
        ("secondCard", .many (secondCardScript gd)),
        ("test", .many (testScript gd)),
        ("clear1", .many (clear1Script gd)),
        ("clear2", .many (clear2Script gd))]

/-- The registers a token's rendered text mentions (each `$name`
occurrence, left to right), as found by the regex `\$([a-zA-Z0-9]+)`. -/
def regsOfExpr : Expr → List String
  | .const _ => []
  | .reg r => [r]

def regsOfCond : Cond → List String
  | .ceq r e => r :: regsOfExpr e
  | .cne r e => r :: regsOfExpr e
  | .clt r e => r :: regsOfExpr e
  | .cgt r e => r :: regsOfExpr e

def regsOfCmd : Cmd → List String
  | .cset r e => r :: regsOfExpr e
  | .cadd r e => r :: regsOfExpr e
  | .csub r e => r :: regsOfExpr e
  | .cmul r e => r :: regsOfExpr e
  | .cmod r e => r :: regsOfExpr e
  | .cdiv r e => r :: regsOfExpr e
  | .ctimer r _ => [r]

def regsOfTok : Tok → List String
  | .cond c => regsOfCond c
  | .cmd c => regsOfCmd c
  | .jump _ => []
  | .play _ => []

/-- All registers mentioned on a line. -/
def regsOfLine (l : List Tok) : List String := l.flatMap regsOfTok

/-- The registers the restart generator's scan (lines 192-197) finds in a
script body.  The Python loop `for line in script` iterates a
single-string script character by character, and `\$([a-zA-Z0-9]+)` never
matches inside a lone character, so a `one` body contributes nothing. -/
def bodyScanRegs : ScriptBody → List String
  | .one _ => []
  | .many ls => ls.flatMap regsOfLine

/-- All registers a script body actually mentions (both body kinds). -/
def bodyAllRegs : ScriptBody → List String
  | .one l => regsOfLine l
  | .many ls => ls.flatMap regsOfLine

/-- Association-list lookup with string keys, first binding wins
(Python dict membership and access). -/
def lookupS : List (String × Nat) → String → Option Nat
  | [], _ => none
  | (k, v) :: m, n => if k = n then some v else lookupS m n

/-- `variables[o] = 0` for a newly discovered register (line 197);
a register already present keeps its recorded value. -/
def addVar (m : List (String × Nat)) (r : String) : List (String × Nat) :=
  if (lookupS m r).isSome then m else m ++ [(r, 0)]

/-- The `variables` dict right before `del variables['busy']`: the init
line's explicit assignments, then every register discovered by the scan of
the script table, in first-occurrence order (lines 188-197). -/
def variablesPre (gd : GameDef) : List (String × Nat) :=
  ((preScripts gd).flatMap (fun nb => bodyScanRegs nb.2)).foldl addVar (initAssigns gd)

/-- The `variables` dict after `del variables['busy']` (line 199). -/
def variablesTbl (gd : GameDef) : List (String × Nat) :=
  (variablesPre gd).filter (fun rv => rv.1 ≠ "busy")

/-- The batching loop of lines 202-212: groups of exactly 6 variables,
with the remainder (possibly empty when there are no variables at all)
in the final group. -/
def restartGo (acc : List (String × Nat)) : List (String × Nat) → List (List (String × Nat))
  | [] => [acc]
  | x :: xs =>
    if acc.length = 6 then acc :: restartGo [x] xs else restartGo (acc ++ [x]) xs

/-- The variable batches of the restart scripts. -/
def restartChunks (gd : GameDef) : List (List (String × Nat)) :=
  restartGo [] (variablesTbl gd)

/-- A restart line: the batch's assignments followed by the given tail. -/
def restartLine (chunk : List (String × Nat)) (tail : List Tok) : List Tok :=
  chunk.map (fun rv => Tok.cmd (.cset rv.1 (.const rv.2))) ++ tail

/-- Emission of the restart scripts from the batches (lines 205-213):
each non-final batch jumps to the next restart script playing `nop`; the
final batch jumps to `idle` playing the welcome narration. -/
def restartScriptsGo (gd : GameDef) (i : Nat) :
    List (List (String × Nat)) → List (String × ScriptBody)
  | [] => []
  | [chunk] =>
    [(restartName i, .one (restartLine chunk [.jump "idle", .play gd.welcome]))]
  | chunk :: c2 :: rest =>
    (restartName i, .one (restartLine chunk [.jump (restartName (i + 1)), .play "nop"]))
      :: restartScriptsGo gd (i + 1) (c2 :: rest)

/-- The restart scripts. -/
def restartScripts (gd : GameDef) : List (String × ScriptBody) :=
  restartScriptsGo gd 0 (restartChunks gd)

/-- The complete generated script table, in insertion order. -/
def fullScripts (gd : GameDef) : List (String × ScriptBody) :=
  preScripts gd ++ restartScripts gd

/-- All registers the generated program mentions anywhere: the init line
plus every line of every script (restart scripts included). -/
def programRegs (gd : GameDef) : List String :=
  (initAssigns gd).map Prod.fst ++ (fullScripts gd).flatMap (fun nb => bodyAllRegs nb.2)

/-- The registers a line assigns with `:=`. -/
def assignedRegsOfLine (l : List Tok) : List String :=
  l.filterMap (fun t =>
    match t with
    | .cmd (.cset r _) => some r
    | _ => none)

/-- The registers assigned (with multiplicity) across all restart scripts. -/
def restartAssignedRegs (gd : GameDef) : List String :=
  (restartScripts gd).flatMap (fun nb => nb.2.lines.flatMap assignedRegsOfLine)

/-- Program state: the integer value of every register. -/
def evalExpr (st : String → Int) : Expr → Int
  | .const n => (n : Int)
  | .reg r => st r

def evalCond (st : String → Int) : Cond → Bool
  | .ceq r e => decide (st r = evalExpr st e)
  | .cne r e => decide (st r ≠ evalExpr st e)
  | .clt r e => decide (st r < evalExpr st e)
  | .cgt r e => decide (st r > evalExpr st e)

/-- A token blocks a line only if it is a failing condition. -/
def tokHolds (st : String → Int) : Tok → Bool
  | .cond c => evalCond st c
  | _ => true

/-- A line fires when all its conditions hold (short-circuit AND). -/
def lineHolds (st : String → Int) (l : List Tok) : Bool := l.all (tokHolds st)

/-- Index of the first line of a script whose conditions all hold; the
interpreter executes exactly this line. -/
def firstHold (st : String → Int) : List (List Tok) → Option Nat
  | [] => none
  | l :: ls => if lineHolds st l then some 0 else (firstHold st ls).map (· + 1)

/-- Removal of the play-mode pass's no-op tokens: the regex `' P\(nop\)'`
of line 283 deletes each `P(nop)` token together with its leading
separator. -/
def nopFilter (l : List Tok) : List Tok := l.filter (fun t => decide (t ≠ .play "nop"))

/-- The jump/play flip of line 284: the leftmost-first, non-overlapping
substitution `J(x) P(y) -> P(y) J(x)`. -/
def jumpSwap : List Tok → List Tok
  | [] => []
  | [t] => [t]
  | t1 :: t2 :: rest =>
    match t1, t2 with
    | .jump x, .play y => .play y :: .jump x :: jumpSwap rest
    | _, _ => t1 :: jumpSwap (t2 :: rest)

/-- The play-mode transform applied to one line (lines 283-289): first
remove the no-op plays, then flip adjacent jump/play pairs. -/
def playTransform (l : List Tok) : List Tok := jumpSwap (nopFilter l)

/-- `true` when the line contains a jump immediately followed by a play. -/
def hasJPAdj : List Tok → Bool
  | .jump _ :: .play _ :: _ => true
  | _ :: rest => hasJPAdj rest
  | [] => false

/-- Lines for which one `jumpSwap` pass is exhaustive: at most one jump,
located at the end or directly before a final play. -/
def okLine (l : List Tok) : Prop :=
  (∀ t ∈ l, t.isJump = false)
  ∨ (∃ A x, l = A ++ [Tok.jump x] ∧ ∀ t ∈ A, t.isJump = false)
  ∨ (∃ A x y, l = A ++ [Tok.jump x, Tok.play y] ∧ ∀ t ∈ A, t.isJump = false)

/-- The per-line facts established by one scan over the whole generated
program: the non-condition token budget, the busy-flag discipline, the
shape needed by the play-mode pass, and the divisor constants. -/
def LineOK (gd : GameDef) (name : String) (l : List Tok) : Prop :=
  nonCondCount l ≤ 8
  ∧ (Tok.cmd (.cset "busy" (.const 0)) ∈ l →
      name = "idle" ∨ (name = "clear1" ∧ l = clear1FinLine gd))
  ∧ okLine (nopFilter l)
  ∧ (∀ r e, (Tok.cmd (.cmod r e) ∈ l ∨ Tok.cmd (.cdiv r e) ∈ l) →
      1 ≤ numPairs gd → ∃ n, e = Expr.const n ∧ 2 ≤ n)

/-- `if not script in codes: codes[script] = code` (dict insertion). -/
def insertAbsent (m : List (String × Nat)) (k : String) (v : Nat) : List (String × Nat) :=
  if (lookupS m k).isSome then m else m ++ [(k, v)]

/-- Script-code assignment for `q`, `r` and the player fields
(lines 250-260): `q` at 2000, `r` at 2001, `p{p+1}` at `2002+p`. -/
def codesQRP (gd : GameDef) (m0 : List (String × Nat)) : List (String × Nat) :=
  (List.range gd.players).foldl (fun m i => insertAbsent m (pName (i + 1)) (2002 + i))
    (insertAbsent (insertAbsent m0 "q" 2000) "r" 2001)

/-- Script-code assignment for the card fields (lines 263-268):
`c{c}` at `3000+c`, the counter advancing for present names too. -/
def codesCards (gd : GameDef) (m0 : List (String × Nat)) : List (String × Nat) :=
  (List.range (numCards gd)).foldl (fun m c => insertAbsent m (cReg c) (3000 + c))
    (codesQRP gd m0)

/-- One step of the final pass (lines 271-275): an absent script name
takes the current counter, which advances only on assignment. -/
def codesRestStep (mc : List (String × Nat) × Nat) (name : String) :
    List (String × Nat) × Nat :=
  if (lookupS mc.1 name).isSome then mc else (mc.1 ++ [(name, mc.2)], mc.2 + 1)

/-- The complete script-code table produced from a prior table `m0`
(lines 245-277). -/
def assignCodes (gd : GameDef) (m0 : List (String × Nat)) : List (String × Nat) :=
  (((fullScripts gd).map Prod.fst).foldl codesRestStep (codesCards gd m0, 4000)).1

/-- The script names still lacking a code when the final pass starts. -/
def remNames (gd : GameDef) (m0 : List (String × Nat)) : List String :=
  ((fullScripts gd).map Prod.fst).filter (fun s => (lookupS (codesCards gd m0) s).isNone)

/-- Game definition with a single pair (the smallest valid game). -/
def gdOne : GameDef :=
  { pairs := ["x"], players := 1, alternativeSounds := false, lang := "en", welcome := "welcome" }

/-- Game definition with two pairs and one player. -/
def gdTwo : GameDef :=
  { pairs := ["a", "b"], players := 1, alternativeSounds := false, lang := "en", welcome := "welcome" }

/-- Game definition with one pair and two players. -/
def gdP2 : GameDef :=
  { pairs := ["a"], players := 2, alternativeSounds := false, lang := "en", welcome := "welcome" }

/-- Game definition with one pair and three players. -/
def gdP3 : GameDef :=
  { pairs := ["a"], players := 3, alternativeSounds := false, lang := "en", welcome := "welcome" }

/-- Finished two-player state with pair counts (3, 1). -/
def st31 : String → Int := fun r =>
  if r = "pairs1" then 3 else if r = "pairs2" then 1 else if r = "players" then 2 else 0

/-- Finished two-player state with pair counts (2, 2). -/
def st22 : String → Int := fun r =>
  if r = "pairs1" then 2 else if r = "pairs2" then 2 else if r = "players" then 2 else 0

/-- Finished three-player state with tied top scores (2, 2, 0). -/
def stT3 : String → Int := fun r =>
  if r = "pairs1" then 2 else if r = "pairs2" then 2 else if r = "players" then 3 else 0

/-- State with `$rnd = 35` and every other register 0. -/
def st35 : String → Int := fun r => if r = "rnd" then 35 else 0

/-! ### Decimal rendering: basic facts -/

theorem digitVal_digitChar (n : Nat) (h : n < 10) : digitVal (digitChar n) = n := by
  interval_cases n <;> rfl

theorem decodeC_append_singleton (cs : List Char) (c : Char) :
    decodeC (cs ++ [c]) = 10 * decodeC cs + digitVal c := by
  simp [decodeC, List.foldl_append]

theorem decodeC_natChars (fuel n : Nat) (h : n < fuel) : decodeC (natChars fuel n) = n := by
  induction fuel generalizing n with
  | zero => omega
  | succ fuel ih =>
    by_cases h10 : n < 10
    · simp [natChars, h10, decodeC, digitVal_digitChar n h10]
    · have hdiv : n / 10 < fuel := by
        have h1 : n / 10 < n := Nat.div_lt_self (by omega) (by norm_num)
        omega
      rw [natChars, if_neg h10, decodeC_append_singleton, ih _ hdiv,
        digitVal_digitChar _ (Nat.mod_lt _ (by norm_num))]
      omega

theorem pyNat_inj {a b : Nat} (h : pyNat a = pyNat b) : a = b := by
  have hd : natChars (a + 1) a = natChars (b + 1) b := congrArg String.data h
  have hdec := congrArg decodeC hd
  rwa [decodeC_natChars _ _ (by omega), decodeC_natChars _ _ (by omega)] at hdec

theorem natChars_ne_nil (fuel n : Nat) (h : n < fuel) : natChars fuel n ≠ [] := by
  cases fuel with
  | zero => omega
  | succ fuel => by_cases h10 : n < 10 <;> simp [natChars, h10]

theorem natChars_digits (fuel n : Nat) : ∀ c ∈ natChars fuel n, digitVal c < 10 := by
  induction fuel generalizing n with
  | zero => simp [natChars]
  | succ fuel ih =>
    intro c hc
    by_cases h10 : n < 10
    · rw [natChars, if_pos h10] at hc
      simp only [List.mem_singleton] at hc
      subst hc
      rw [digitVal_digitChar n h10]; exact h10
    · rw [natChars, if_neg h10] at hc
      rcases List.mem_append.mp hc with hc | hc
      · exact ih _ _ hc
      · simp only [List.mem_singleton] at hc
        subst hc
        rw [digitVal_digitChar _ (Nat.mod_lt _ (by norm_num))]
        exact Nat.mod_lt _ (by norm_num)

/-! ### Script and register names: disequalities -/

theorem data_head_ne {s t : String} {a b : Char} {l m : List Char}
    (hs : s.data = a :: l) (ht : t.data = b :: m) (hab : a ≠ b) : s ≠ t := by
  intro h
  rw [h, ht] at hs
  injection hs with h1 _
  exact hab h1.symm

theorem data2_ne {s t : String} {a a2 b b2 : Char} {l m : List Char}
    (hs : s.data = a :: a2 :: l) (ht : t.data = b :: b2 :: m) (h : a2 ≠ b2) : s ≠ t := by
  intro he
  rw [he, ht] at hs
  injection hs with _ hs2
  injection hs2 with h2 _
  exact h h2.symm

theorem pName_inj {a b : Nat} (h : pName a = pName b) : a = b := by
  have hd : ('p' :: natChars (a + 1) a : List Char) = 'p' :: natChars (b + 1) b :=
    congrArg String.data h
  injection hd with _ h2
  exact pyNat_inj (congrArg String.mk h2)

theorem cReg_inj {a b : Nat} (h : cReg a = cReg b) : a = b := by
  have hd : ('c' :: natChars (a + 1) a : List Char) = 'c' :: natChars (b + 1) b :=
    congrArg String.data h
  injection hd with _ h2
  exact pyNat_inj (congrArg String.mk h2)

theorem shuffleName_inj {a b : Nat} (h : shuffleName a = shuffleName b) : a = b := by
  have hd : ('s' :: 'h' :: 'u' :: 'f' :: 'f' :: 'l' :: 'e' :: natChars (a + 1) a : List Char)
      = 's' :: 'h' :: 'u' :: 'f' :: 'f' :: 'l' :: 'e' :: natChars (b + 1) b :=
    congrArg String.data h
  simp only [List.cons.injEq, true_and] at hd
  exact pyNat_inj (congrArg String.mk hd)

theorem restartName_inj {a b : Nat} (h : restartName a = restartName b) : a = b := by
  have hd : ('r' :: 'e' :: 's' :: 't' :: 'a' :: 'r' :: 't' :: natChars (a + 1) a : List Char)
      = 'r' :: 'e' :: 's' :: 't' :: 'a' :: 'r' :: 't' :: natChars (b + 1) b :=
    congrArg String.data h
  simp only [List.cons.injEq, true_and] at hd
  exact pyNat_inj (congrArg String.mk hd)

theorem pairsReg_inj {a b : Nat} (h : pairsReg a = pairsReg b) : a = b := by
  have hd : ('p' :: 'a' :: 'i' :: 'r' :: 's' :: natChars (a + 1) a : List Char)
      = 'p' :: 'a' :: 'i' :: 'r' :: 's' :: natChars (b + 1) b :=
    congrArg String.data h
  simp only [List.cons.injEq, true_and] at hd
  exact pyNat_inj (congrArg String.mk hd)

theorem cReg_ne_busy (c : Nat) : cReg c ≠ "busy" :=
  data_head_ne rfl rfl (by decide)

theorem shuffleName_ne_shuffle (k : Nat) : shuffleName k ≠ "shuffle" := by
  intro h
  have hd : ('s' :: 'h' :: 'u' :: 'f' :: 'f' :: 'l' :: 'e' :: natChars (k + 1) k).length
      = (['s', 'h', 'u', 'f', 'f', 'l', 'e'] : List Char).length :=
    congrArg (fun s => s.data.length) h
  simp only [List.length_cons, List.length_nil] at hd
  exact natChars_ne_nil (k + 1) k (by omega) (List.eq_nil_of_length_eq_zero (by omega))

theorem restartName_ne_r (k : Nat) : restartName k ≠ "r" := by
  intro h
  have hd : ('r' :: 'e' :: 's' :: 't' :: 'a' :: 'r' :: 't' :: natChars (k + 1) k).length
      = (['r'] : List Char).length :=
    congrArg (fun s => s.data.length) h
  simp only [List.length_cons, List.length_nil] at hd
  omega

theorem cReg_ne_clear1 (k : Nat) : cReg k ≠ "clear1" := by
  intro h
  have hd : ('c' :: natChars (k + 1) k : List Char) = ['c', 'l', 'e', 'a', 'r', '1'] :=
    congrArg String.data h
  injection hd with _ h2
  have hl : 'l' ∈ natChars (k + 1) k := by rw [h2]; simp
  have := natChars_digits (k + 1) k 'l' hl
  simp [digitVal] at this

/-! ### First-match evaluation -/

theorem firstHold_cons (st : String → Int) (l : List Tok) (ls : List (List Tok)) :
    firstHold st (l :: ls)
      = if lineHolds st l then some 0 else (firstHold st ls).map (· + 1) := rfl

theorem firstHold_eq_none_iff (st : String → Int) (L : List (List Tok)) :
    firstHold st L = none ↔ ∀ l ∈ L, ¬ lineHolds st l := by
  induction L with
  | nil => simp [firstHold]
  | cons l ls ih =>
    rw [firstHold_cons]
    by_cases h : lineHolds st l
    · simp [h]
    · simp [h, Option.map_eq_none', ih]

theorem firstHold_append_some (st : String → Int) (A B : List (List Tok)) (n : Nat)
    (h : firstHold st A = some n) : firstHold st (A ++ B) = some n := by
  induction A generalizing n with
  | nil => simp [firstHold] at h
  | cons a A ih =>
    rw [List.cons_append, firstHold_cons]
    rw [firstHold_cons] at h
    by_cases ha : lineHolds st a
    · rw [if_pos ha] at h ⊢; exact h
    · rw [if_neg ha] at h ⊢
      cases hfa : firstHold st A with
      | none => rw [hfa] at h; simp at h
      | some m =>
        rw [hfa] at h
        simp only [Option.map_some'] at h
        rw [ih m hfa]
        simpa using h

theorem firstHold_append_shift (st : String → Int) (A B : List (List Tok)) (n : Nat)
    (hA : firstHold st A = none) (h : firstHold st B = some n) :
    firstHold st (A ++ B) = some (A.length + n) := by
  induction A with
  | nil => simpa using h
  | cons a A ih =>
    rw [firstHold_cons] at hA
    by_cases ha : lineHolds st a
    · rw [if_pos ha] at hA; simp at hA
    · rw [if_neg ha] at hA
      have hA' : firstHold st A = none := by
        cases hfa : firstHold st A
        · rfl
        · rw [hfa] at hA; simp at hA
      rw [List.cons_append, firstHold_cons, if_neg ha, ih hA']
      simp only [Option.map_some', List.length_cons]
      congr 1
      omega

theorem firstHold_eq_some_iff (st : String → Int) (L : List (List Tok)) (n : Nat) :
    firstHold st L = some n ↔
      n < L.length ∧ lineHolds st (L.getD n [])
        ∧ ∀ i < n, ¬ lineHolds st (L.getD i []) := by
  induction L generalizing n with
  | nil => simp [firstHold]
  | cons l ls ih =>
    rw [firstHold_cons]
    by_cases h : lineHolds st l
    · rw [if_pos h]
      constructor
      · intro he
        have h0 : (0 : Nat) = n := by injection he
        subst h0
        exact ⟨by simp, by simpa using h, by omega⟩
      · rintro ⟨hn, hh, hmin⟩
        cases n with
        | zero => rfl
        | succ m => exact absurd h (by simpa using hmin 0 (by omega))
    · rw [if_neg h]
      cases n with
      | zero =>
        simp only [List.getD_cons_zero]
        constructor
        · intro he
          cases hfa : firstHold st ls <;> rw [hfa] at he <;> simp at he
        · rintro ⟨_, hh, _⟩
          exact absurd hh h
      | succ m =>
        constructor
        · intro he
          have hs : firstHold st ls = some m := by
            cases hfa : firstHold st ls with
            | none => rw [hfa] at he; simp at he
            | some v =>
              rw [hfa] at he
              simp only [Option.map_some', Option.some.injEq] at he
              simp only [Option.some.injEq]
              omega
          rcases (ih m).mp hs with ⟨hm, hh, hmin⟩
          refine ⟨by simpa using hm, by simpa using hh, ?_⟩
          intro i hi
          cases i with
          | zero => simpa using h
          | succ j => simpa using hmin j (by omega)
        · rintro ⟨hn, hh, hmin⟩
          have hs : firstHold st ls = some m := by
            refine (ih m).mpr ⟨by simpa using hn, by simpa using hh, ?_⟩
            intro j hj
            simpa using hmin (j + 1) (by omega)
          rw [hs]
          rfl

theorem getD_map_range' (f : Nat → List Tok) (s n i : Nat) (h : i < n) :
    ((List.range' s n).map f).getD i [] = f (s + i) := by
  rw [List.getD_eq_getElem _ _ (by simpa [List.length_range'] using h)]
  rw [List.getElem_map, List.getElem_range']
  simp

/-! ### The play-mode rewrite -/

theorem jumpSwap_nil : jumpSwap ([] : List Tok) = [] := rfl

theorem jumpSwap_singleton (t : Tok) : jumpSwap [t] = [t] := rfl

theorem jumpSwap_pair (x y : String) (r : List Tok) :
    jumpSwap (.jump x :: .play y :: r) = .play y :: .jump x :: jumpSwap r := rfl

theorem jumpSwap_cons_nojump (t : Tok) (ht : t.isJump = false) (l : List Tok) :
    jumpSwap (t :: l) = t :: jumpSwap l := by
  cases l with
  | nil => rfl
  | cons t2 r =>
    cases t with
    | jump x => simp [Tok.isJump] at ht
    | cond c => rfl
    | cmd c => rfl
    | play s => rfl

theorem jumpSwap_cons_cons_jump (x : String) (t2 : Tok) (ht2 : t2.isPlay = false)
    (r : List Tok) : jumpSwap (.jump x :: t2 :: r) = .jump x :: jumpSwap (t2 :: r) := by
  cases t2 with
  | play s => simp [Tok.isPlay] at ht2
  | cond c => rfl
  | cmd c => rfl
  | jump y => rfl

theorem jumpSwap_append_nojump (A : List Tok) (hA : ∀ t ∈ A, t.isJump = false)
    (r : List Tok) : jumpSwap (A ++ r) = A ++ jumpSwap r := by
  induction A with
  | nil => rfl
  | cons a A ih =>
    rw [List.cons_append, jumpSwap_cons_nojump a (hA a (by simp)),
      ih (fun t ht => hA t (by simp [ht]))]
    rfl

theorem jumpSwap_eq_self_of_nojump (l : List Tok) (h : ∀ t ∈ l, t.isJump = false) :
    jumpSwap l = l := by
  have h2 := jumpSwap_append_nojump l h []
  simp only [List.append_nil, jumpSwap_nil] at h2
  exact h2

theorem mem_jumpSwap : ∀ (l : List Tok) (t : Tok), t ∈ jumpSwap l → t ∈ l
  | [], t, h => by rw [jumpSwap_nil] at h; exact h
  | [t1], t, h => by rw [jumpSwap_singleton] at h; exact h
  | t1 :: t2 :: rest, t, h => by
    cases t1 with
    | jump x =>
      cases t2 with
      | play y =>
        rw [jumpSwap_pair] at h
        simp only [List.mem_cons] at h ⊢
        rcases h with h | h | h
        · right; left; exact h
        · left; exact h
        · right; right; exact mem_jumpSwap rest t h
      | cond c =>
        rw [jumpSwap_cons_cons_jump x (Tok.cond c) rfl] at h
        simp only [List.mem_cons] at h ⊢
        rcases h with h | h
        · left; exact h
        · rcases List.mem_cons.mp (mem_jumpSwap _ t h) with h | h
          · right; left; exact h
          · right; right; exact h
      | cmd c =>
        rw [jumpSwap_cons_cons_jump x (Tok.cmd c) rfl] at h
        simp only [List.mem_cons] at h ⊢
        rcases h with h | h
        · left; exact h
        · rcases List.mem_cons.mp (mem_jumpSwap _ t h) with h | h
          · right; left; exact h
          · right; right; exact h
      | jump y =>
        rw [jumpSwap_cons_cons_jump x (Tok.jump y) rfl] at h
        simp only [List.mem_cons] at h ⊢
        rcases h with h | h
        · left; exact h
        · rcases List.mem_cons.mp (mem_jumpSwap _ t h) with h | h
          · right; left; exact h
          · right; right; exact h
    | cond c =>
      rw [jumpSwap_cons_nojump (Tok.cond c) rfl] at h
      simp only [List.mem_cons] at h ⊢
      rcases h with h | h
      · left; exact h
      · rcases List.mem_cons.mp (mem_jumpSwap _ t h) with h | h
        · right; left; exact h
        · right; right; exact h
    | cmd c =>
      rw [jumpSwap_cons_nojump (Tok.cmd c) rfl] at h
      simp only [List.mem_cons] at h ⊢
      rcases h with h | h
      · left; exact h
      · rcases List.mem_cons.mp (mem_jumpSwap _ t h) with h | h
        · right; left; exact h
        · right; right; exact h
    | play s =>
      rw [jumpSwap_cons_nojump (Tok.play s) rfl] at h
      simp only [List.mem_cons] at h ⊢
      rcases h with h | h
      · left; exact h
      · rcases List.mem_cons.mp (mem_jumpSwap _ t h) with h | h
        · right; left; exact h
        · right; right; exact h

theorem jumpSwap_eq_self_of_noadj : ∀ l : List Tok, hasJPAdj l = false → jumpSwap l = l
  | [], _ => rfl
  | [t], _ => rfl
  | t1 :: t2 :: rest, h => by
    cases t1 with
    | jump x =>
      cases t2 with
      | play y => simp [hasJPAdj] at h
      | cond c =>
        rw [jumpSwap_cons_cons_jump x (Tok.cond c) rfl,
          jumpSwap_eq_self_of_noadj (Tok.cond c :: rest) h]
      | cmd c =>
        rw [jumpSwap_cons_cons_jump x (Tok.cmd c) rfl,
          jumpSwap_eq_self_of_noadj (Tok.cmd c :: rest) h]
      | jump y =>
        rw [jumpSwap_cons_cons_jump x (Tok.jump y) rfl,
          jumpSwap_eq_self_of_noadj (Tok.jump y :: rest) h]
    | cond c =>
      rw [jumpSwap_cons_nojump (Tok.cond c) rfl, jumpSwap_eq_self_of_noadj (t2 :: rest) h]
    | cmd c =>
      rw [jumpSwap_cons_nojump (Tok.cmd c) rfl, jumpSwap_eq_self_of_noadj (t2 :: rest) h]
    | play s =>
      rw [jumpSwap_cons_nojump (Tok.play s) rfl, jumpSwap_eq_self_of_noadj (t2 :: rest) h]

theorem jumpSwap_idem_of_okLine (l : List Tok) (h : okLine l) :
    jumpSwap (jumpSwap l) = jumpSwap l := by
  rcases h with h | ⟨A, x, rfl, hA⟩ | ⟨A, x, y, rfl, hA⟩
  · rw [jumpSwap_eq_self_of_nojump l h, jumpSwap_eq_self_of_nojump l h]
  · rw [jumpSwap_append_nojump A hA, jumpSwap_singleton,
      jumpSwap_append_nojump A hA, jumpSwap_singleton]
  · rw [jumpSwap_append_nojump A hA]
    have h2 : jumpSwap [Tok.jump x, Tok.play y] = [Tok.play y, Tok.jump x] := rfl
    rw [h2]
    have hre : A ++ [Tok.play y, Tok.jump x] = (A ++ [Tok.play y]) ++ [Tok.jump x] := by simp
    rw [hre, jumpSwap_append_nojump (A ++ [Tok.play y]) ?hAP, jumpSwap_singleton]
    case hAP =>
      intro t ht
      rcases List.mem_append.mp ht with h | h
      · exact hA t h
      · simp only [List.mem_singleton] at h
        subst h
        rfl

theorem nopFilter_sub {t : Tok} {l : List Tok} (h : t ∈ nopFilter l) : t ∈ l :=
  (List.mem_filter.mp h).1

theorem nopFilter_append (A B : List Tok) :
    nopFilter (A ++ B) = nopFilter A ++ nopFilter B := List.filter_append _ _

theorem okLine_of_nojump (l : List Tok) (h : ∀ t ∈ l, t.isJump = false) :
    okLine (nopFilter l) :=
  Or.inl (fun t ht => h t (nopFilter_sub ht))

theorem okLine_tail_jp (A : List Tok) (x s : String) (hA : ∀ t ∈ A, t.isJump = false) :
    okLine (nopFilter (A ++ [Tok.jump x, Tok.play s])) := by
  rw [nopFilter_append]
  by_cases hs : s = "nop"
  · subst hs
    have h2 : nopFilter [Tok.jump x, Tok.play "nop"] = [Tok.jump x] := by
      simp [nopFilter, List.filter]
    rw [h2]
    exact Or.inr (Or.inl ⟨nopFilter A, x, rfl, fun t ht => hA t (nopFilter_sub ht)⟩)
  · have h2 : nopFilter [Tok.jump x, Tok.play s] = [Tok.jump x, Tok.play s] := by
      simp [nopFilter, List.filter, hs]
    rw [h2]
    exact Or.inr (Or.inr ⟨nopFilter A, x, s, rfl, fun t ht => hA t (nopFilter_sub ht)⟩)

theorem okLine_tail_pjp (A : List Tok) (s1 x s2 : String)
    (hA : ∀ t ∈ A, t.isJump = false) :
    okLine (nopFilter (A ++ [Tok.play s1, Tok.jump x, Tok.play s2])) := by
  have hre : A ++ [Tok.play s1, Tok.jump x, Tok.play s2]
      = (A ++ [Tok.play s1]) ++ [Tok.jump x, Tok.play s2] := by simp
  rw [hre]
  refine okLine_tail_jp (A ++ [Tok.play s1]) x s2 ?_
  intro t ht
  rcases List.mem_append.mp ht with h | h
  · exact hA t h
  · simp only [List.mem_singleton] at h
    subst h
    rfl

theorem nop_not_mem_playTransform (l : List Tok) : Tok.play "nop" ∉ playTransform l := by
  intro h
  have h2 := mem_jumpSwap _ _ h
  have h3 := (List.mem_filter.mp h2).2
  simp at h3

theorem playTransform_fixpoint (l : List Tok) (hnop : Tok.play "nop" ∉ l)
    (hadj : hasJPAdj l = false) : playTransform l = l := by
  have hfil : nopFilter l = l := by
    apply List.filter_eq_self.mpr
    intro t ht
    simp only [decide_eq_true_eq]
    intro he
    subst he
    exact hnop ht
  rw [playTransform, hfil]
  exact jumpSwap_eq_self_of_noadj l hadj

theorem playTransform_idem_of_okLine (l : List Tok) (h : okLine (nopFilter l)) :
    playTransform (playTransform l) = playTransform l := by
  rw [playTransform, playTransform]
  have hfil : nopFilter (jumpSwap (nopFilter l)) = jumpSwap (nopFilter l) := by
    apply List.filter_eq_self.mpr
    intro t ht
    exact (List.mem_filter.mp (mem_jumpSwap _ t ht)).2
  rw [hfil]
  exact jumpSwap_idem_of_okLine _ h

/-! ### Token counting -/

theorem nonCondCount_nil : nonCondCount [] = 0 := rfl

theorem nonCondCount_cons (t : Tok) (l : List Tok) :
    nonCondCount (t :: l) = (if t.isCond then 0 else 1) + nonCondCount l := by
  by_cases h : t.isCond <;> simp [nonCondCount, List.filter_cons, h] <;> omega

theorem nonCondCount_append (A B : List Tok) :
    nonCondCount (A ++ B) = nonCondCount A + nonCondCount B := by
  simp [nonCondCount, List.filter_append]

theorem nonCondCount_condMap {α : Type} (f : α → Cond) (xs : List α) :
    nonCondCount (xs.map (fun o => Tok.cond (f o))) = 0 := by
  induction xs with
  | nil => rfl
  | cons x xs ih =>
    rw [List.map_cons, nonCondCount_cons]
    simpa [Tok.isCond] using ih

theorem busy_ne_cReg (c : Nat) : "busy" ≠ cReg c := fun h => cReg_ne_busy c h.symm

@[simp] theorem isCond_cond (c : Cond) : (Tok.cond c).isCond = true := rfl

@[simp] theorem isCond_cmd (c : Cmd) : (Tok.cmd c).isCond = false := rfl

@[simp] theorem isCond_jump (s : String) : (Tok.jump s).isCond = false := rfl

@[simp] theorem isCond_play (s : String) : (Tok.play s).isCond = false := rfl

@[simp] theorem isJump_cond (c : Cond) : (Tok.cond c).isJump = false := rfl

@[simp] theorem isJump_cmd (c : Cmd) : (Tok.cmd c).isJump = false := rfl

@[simp] theorem isJump_jump (s : String) : (Tok.jump s).isJump = true := rfl

@[simp] theorem isJump_play (s : String) : (Tok.play s).isJump = false := rfl

/-! ### Per-family line facts -/

theorem lineOK_of_parts (gd : GameDef) (name : String) (l : List Tok)
    (h1 : nonCondCount l ≤ 8)
    (h2 : Tok.cmd (.cset "busy" (.const 0)) ∉ l)
    (h3 : okLine (nopFilter l))
    (h4 : ∀ r e, ¬ (Tok.cmd (.cmod r e) ∈ l ∨ Tok.cmd (.cdiv r e) ∈ l)) :
    LineOK gd name l :=
  ⟨h1, fun hm => absurd hm h2, h3, fun r e hm _ => absurd hm (h4 r e)⟩

theorem lineOK_idle (gd : GameDef) : ∀ l ∈ (ScriptBody.one idleLine).lines,
    LineOK gd "idle" l := by
  intro l hl
  simp only [ScriptBody.lines, List.mem_singleton] at hl
  subst hl
  refine ⟨?_, fun _ => Or.inl rfl, ?_, ?_⟩
  · simp [idleLine, nonCondCount, List.filter, Tok.isCond]
  · exact okLine_of_nojump _ (by simp [idleLine, Tok.isJump])
  · intro r e hm
    simp [idleLine] at hm

theorem lineOK_player (gd : GameDef) (p : Nat) :
    ∀ l ∈ playerScript gd p, LineOK gd (pName p) l := by
  intro l hl
  rw [playerScript] at hl
  rcases List.mem_append.mp hl with hl | hl
  · simp only [List.mem_cons, List.not_mem_nil, or_false] at hl
    rcases hl with rfl | rfl
    · refine lineOK_of_parts gd _ _ ?_ ?_ ?_ ?_
      · simp [nonCondCount, List.filter, Tok.isCond]
      · simp
      · exact okLine_tail_jp
          [.cond (.ceq "players" (.const 0)), .cmd (.cset "players" (.const p)),
           .cmd (.cset "busy" (.const 1)), .cmd (.ctimer "random" 65535)]
          "shuffle" (gd.lang ++ "_shuffle") (by simp [Tok.isJump])
      · intro r e hm
        simp at hm
    · refine lineOK_of_parts gd _ _ ?_ ?_ ?_ ?_
      · simp [nonCondCount, List.filter, Tok.isCond]
      · simp
      · exact okLine_tail_jp
          [.cond (.ceq "busy" (.const 0)), .cond (.clt "players" (.const p)),
           .cmd (.cset "busy" (.const 1))]
          "idle" (gd.lang ++ "_not_playing") (by simp [Tok.isJump])
      · intro r e hm
        simp at hm
  · rcases List.mem_map.mp hl with ⟨pa, _, rfl⟩
    refine lineOK_of_parts gd _ _ ?_ ?_ ?_ ?_
    · simp [nonCondCount, List.filter, Tok.isCond]
    · simp
    · exact okLine_tail_jp
        [.cond (.ceq "busy" (.const 0)), .cond (.ceq (pairsReg p) (.const pa)),
         .cmd (.cset "busy" (.const 1))]
        "idle" (gd.lang ++ "_pairs" ++ pyNat pa) (by simp [Tok.isJump])
    · intro r e hm
      simp at hm

theorem lineOK_q (gd : GameDef) : ∀ l ∈ qScript gd, LineOK gd "q" l := by
  intro l hl
  rw [qScript] at hl
  rcases List.mem_append.mp hl with hl | hl
  swap
  · simp only [List.mem_singleton] at hl
    subst hl
    refine lineOK_of_parts gd _ _ ?_ ?_ ?_ ?_
    · simp [qDraw, nonCondCount, List.filter, Tok.isCond]
    · simp [qDraw]
    · exact okLine_tail_jp
        [.cond (.ceq "busy" (.const 0)), .cmd (.cset "busy" (.const 1))]
        "idle" (gd.lang ++ "_draw") (by simp [Tok.isJump])
    · intro r e hm
      simp [qDraw] at hm
  rcases List.mem_append.mp hl with hl | hl
  swap
  · rcases List.mem_map.mp hl with ⟨pp, _, rfl⟩
    have hsplit : qWinner gd pp
        = (Tok.cond (.ceq "busy" (.const 0))
            :: ((List.range' 1 gd.players).filter (fun o => pp != o)).map
                (fun o => Tok.cond (.cgt (pairsReg pp) (.reg (pairsReg o))))
            ++ [Tok.cmd (.cset "busy" (.const 1))])
          ++ [Tok.jump "idle", Tok.play (gd.lang ++ "_winner" ++ pyNat pp)] := by
      simp [qWinner]
    refine lineOK_of_parts gd _ _ ?_ ?_ ?_ ?_
    · rw [hsplit]
      simp only [nonCondCount_append, nonCondCount_cons, nonCondCount_condMap]
      simp [nonCondCount, List.filter, Tok.isCond]
    · rw [hsplit]
      intro hm
      rcases List.mem_append.mp hm with hm | hm
      · rcases List.mem_cons.mp hm with hm | hm
        · simp at hm
        · rcases List.mem_append.mp hm with hm | hm
          · rcases List.mem_map.mp hm with ⟨o, _, ho⟩
            simp at ho
          · simp at hm
      · simp at hm
    · rw [hsplit]
      refine okLine_tail_jp _ _ _ ?_
      intro t ht
      rcases List.mem_cons.mp ht with rfl | ht
      · rfl
      rcases List.mem_append.mp ht with ht | ht
      · rcases List.mem_map.mp ht with ⟨o, _, rfl⟩
        rfl
      · simp only [List.mem_singleton] at ht
        subst ht
        rfl
    · intro r e hm
      rw [hsplit] at hm
      rcases hm with hm | hm <;>
      · rcases List.mem_append.mp hm with hm | hm
        · rcases List.mem_cons.mp hm with hm | hm
          · simp at hm
          · rcases List.mem_append.mp hm with hm | hm
            · rcases List.mem_map.mp hm with ⟨o, _, ho⟩
              simp at ho
            · simp at hm
        · simp at hm
  rcases List.mem_append.mp hl with hl | hl
  · simp only [List.mem_singleton] at hl
    subst hl
    refine lineOK_of_parts gd _ _ ?_ ?_ ?_ ?_
    · simp [qNotStarted, nonCondCount, List.filter, Tok.isCond]
    · simp [qNotStarted]
    · exact okLine_tail_jp
        [.cond (.ceq "busy" (.const 0)), .cond (.ceq "players" (.const 0)),
         .cmd (.cset "busy" (.const 1))]
        "idle" (gd.lang ++ "_not_started") (by simp [Tok.isJump])
    · intro r e hm
      simp [qNotStarted] at hm
  · rcases List.mem_map.mp hl with ⟨pp, _, rfl⟩
    refine lineOK_of_parts gd _ _ ?_ ?_ ?_ ?_
    · simp [qOngoing, nonCondCount, List.filter, Tok.isCond]
    · simp [qOngoing]
    · exact okLine_tail_jp
        [.cond (.ceq "busy" (.const 0)), .cond (.cgt "remaining" (.const 0)),
         .cond (.ceq "player" (.const pp)), .cmd (.cset "busy" (.const 1))]
        "idle" (gd.lang ++ "_player" ++ pyNat pp) (by simp [Tok.isJump])
    · intro r e hm
      simp [qOngoing] at hm

theorem lineOK_r (gd : GameDef) : ∀ l ∈ rScript gd, LineOK gd "r" l := by
  intro l hl
  rw [rScript] at hl
  rcases List.mem_append.mp hl with hl | hl
  · simp only [List.mem_singleton] at hl
    subst hl
    refine lineOK_of_parts gd _ _ ?_ ?_ ?_ ?_
    · simp [nonCondCount, List.filter, Tok.isCond]
    · simp
    · exact okLine_tail_jp
        [.cond (.ceq "busy" (.const 0)), .cond (.ceq "remaining" (.const 0)),
         .cmd (.cset "busy" (.const 1))]
        "restart0" "nop" (by simp [Tok.isJump])
    · intro r e hm
      simp at hm
  · rcases List.mem_map.mp hl with ⟨c, _, rfl⟩
    refine lineOK_of_parts gd _ _ ?_ ?_ ?_ ?_
    · simp [nonCondCount, List.filter, Tok.isCond]
    · simp
    · exact okLine_tail_jp
        [.cond (.ceq "busy" (.const 0)), .cond (.ceq "lastCard" (.const c)),
         .cmd (.cset "busy" (.const 1))]
        "idle" (sound gd c) (by simp [Tok.isJump])
    · intro r e hm
      simp at hm

theorem lineOK_firstCard (gd : GameDef) :
    ∀ l ∈ firstCardScript gd, LineOK gd "firstCard" l := by
  intro l hl
  rw [firstCardScript] at hl
  rcases List.mem_map.mp hl with ⟨c, _, rfl⟩
  refine lineOK_of_parts gd _ _ ?_ ?_ ?_ ?_
  · simp [nonCondCount, List.filter, Tok.isCond]
  · simp
  · exact okLine_tail_jp [.cond (.ceq "card1" (.const c))] "idle" (sound gd c)
      (by simp [Tok.isJump])
  · intro r e hm
    simp at hm

theorem lineOK_secondCard (gd : GameDef) :
    ∀ l ∈ secondCardScript gd, LineOK gd "secondCard" l := by
  intro l hl
  rw [secondCardScript] at hl
  rcases List.mem_map.mp hl with ⟨c, _, rfl⟩
  refine lineOK_of_parts gd _ _ ?_ ?_ ?_ ?_
  · simp [nonCondCount, List.filter, Tok.isCond]
  · simp
  · exact okLine_tail_jp
      [.cond (.ceq "card2" (.const c)), .cmd (.cset "sum" (.reg "card1")),
       .cmd (.cadd "sum" (.reg "card2")), .cmd (.cset "card1" (.const 0)),
       .cmd (.cset "card2" (.const 0))]
      "test" (sound gd c) (by simp [Tok.isJump])
  · intro r e hm
    simp at hm

theorem lineOK_test (gd : GameDef) : ∀ l ∈ testScript gd, LineOK gd "test" l := by
  intro l hl
  rw [testScript] at hl
  rcases List.mem_append.mp hl with hl | hl
  · rcases List.mem_append.mp hl with hl | hl
    · rcases List.mem_map.mp hl with ⟨pp, _, rfl⟩
      refine lineOK_of_parts gd _ _ ?_ ?_ ?_ ?_
      · simp [nonCondCount, List.filter, Tok.isCond]
      · simp
      · exact okLine_tail_jp
          [.cond (.ceq "sum" (.const (numCards gd + 1))), .cond (.ceq "player" (.const pp)),
           .cmd (.cadd (pairsReg pp) (.const 1)), .cmd (.csub "remaining" (.const 1))]
          "clear1" (gd.lang ++ "_match") (by simp [Tok.isJump])
      · intro r e hm
        simp at hm
    · simp only [List.mem_singleton] at hl
      subst hl
      refine lineOK_of_parts gd _ _ ?_ ?_ ?_ ?_
      · simp [nonCondCount, List.filter, Tok.isCond]
      · simp
      · exact okLine_tail_jp
          [.cond (.ceq "player" (.reg "players")), .cmd (.cset "player" (.const 1))]
          "idle" (gd.lang ++ "_player1") (by simp [Tok.isJump])
      · intro r e hm
        simp at hm
  · rcases List.mem_map.mp hl with ⟨pp, _, rfl⟩
    refine lineOK_of_parts gd _ _ ?_ ?_ ?_ ?_
    · simp [nonCondCount, List.filter, Tok.isCond]
    · simp
    · exact okLine_tail_jp
        [.cond (.ceq "player" (.const pp)), .cmd (.cadd "player" (.const 1))]
        "idle" (gd.lang ++ "_player" ++ pyNat (pp + 1)) (by simp [Tok.isJump])
    · intro r e hm
      simp at hm

theorem lineOK_card (gd : GameDef) (c : Nat) :
    ∀ l ∈ cardScript gd c, LineOK gd (cReg c) l := by
  intro l hl
  rw [cardScript] at hl
  simp only [List.mem_cons, List.not_mem_nil, or_false] at hl
  rcases hl with rfl | rfl | rfl | rfl | rfl | rfl
  · refine lineOK_of_parts gd _ _ ?_ ?_ ?_ ?_
    · simp [nonCondCount, List.filter, Tok.isCond]
    · simp
    · exact okLine_of_nojump _ (by simp [Tok.isJump])
    · intro r e hm
      simp at hm
  · refine lineOK_of_parts gd _ _ ?_ ?_ ?_ ?_
    · simp [nonCondCount, List.filter, Tok.isCond]
    · simp
    · exact okLine_of_nojump _ (by simp [Tok.isJump])
    · intro r e hm
      simp at hm
  · refine lineOK_of_parts gd _ _ ?_ ?_ ?_ ?_
    · simp [nonCondCount, List.filter, Tok.isCond]
    · simp
    · exact okLine_tail_jp
        [.cond (.ceq "busy" (.const 0)), .cond (.ceq (cReg c) (.const 0)),
         .cmd (.cset "busy" (.const 1))]
        "idle" (gd.lang ++ "_empty") (by simp [Tok.isJump])
    · intro r e hm
      simp at hm
  · refine lineOK_of_parts gd _ _ ?_ ?_ ?_ ?_
    · simp [nonCondCount, List.filter, Tok.isCond]
    · simp [busy_ne_cReg c]
    · exact okLine_tail_jp
        [.cond (.ceq "busy" (.const 0)), .cond (.ceq "card1" (.const 0)),
         .cmd (.cset "card1" (.reg (cReg c))), .cmd (.cset "pos1" (.const c)),
         .cmd (.cset "lastCard" (.reg (cReg c))), .cmd (.cset "lastPos" (.const c)),
         .cmd (.cset "busy" (.const 1))]
        "firstCard" "nop" (by simp [Tok.isJump])
    · intro r e hm
      simp at hm
  · refine lineOK_of_parts gd _ _ ?_ ?_ ?_ ?_
    · simp [nonCondCount, List.filter, Tok.isCond]
    · simp
    · exact okLine_tail_jp
        [.cond (.ceq "busy" (.const 0)), .cond (.ceq "card1" (.reg (cReg c))),
         .cmd (.cset "busy" (.const 1))]
        "firstCard" "nop" (by simp [Tok.isJump])
    · intro r e hm
      simp at hm
  · refine lineOK_of_parts gd _ _ ?_ ?_ ?_ ?_
    · simp [nonCondCount, List.filter, Tok.isCond]
    · simp [busy_ne_cReg c]
    · exact okLine_tail_jp
        [.cond (.ceq "busy" (.const 0)), .cond (.cne "card1" (.reg (cReg c))),
         .cmd (.cset "card2" (.reg (cReg c))), .cmd (.cset "pos2" (.const c)),
         .cmd (.cset "lastCard" (.reg (cReg c))), .cmd (.cset "lastPos" (.const c)),
         .cmd (.cset "busy" (.const 1))]
        "secondCard" "nop" (by simp [Tok.isJump])
    · intro r e hm
      simp at hm

theorem lineOK_clear1 (gd : GameDef) : ∀ l ∈ clear1Script gd, LineOK gd "clear1" l := by
  intro l hl
  rw [clear1Script] at hl
  rcases List.mem_append.mp hl with hl | hl
  · simp only [List.mem_singleton] at hl
    subst hl
    refine ⟨?_, fun _ => Or.inr ⟨rfl, rfl⟩, ?_, ?_⟩
    · simp [clear1FinLine, nonCondCount, List.filter, Tok.isCond]
    · exact okLine_tail_jp
        [.cond (.ceq "remaining" (.const 0)), .cmd (.cset "busy" (.const 0))]
        "q" (gd.lang ++ "_finished") (by simp [Tok.isJump])
    · intro r e hm
      simp [clear1FinLine] at hm
  · rcases List.mem_map.mp hl with ⟨c, _, rfl⟩
    refine lineOK_of_parts gd _ _ ?_ ?_ ?_ ?_
    · simp [nonCondCount, List.filter, Tok.isCond]
    · simp [busy_ne_cReg c]
    · exact okLine_tail_jp
        [.cond (.ceq "pos1" (.const c)), .cmd (.cset (cReg c) (.const 0)),
         .cmd (.cset "pos1" (.const 0))]
        "clear2" "nop" (by simp [Tok.isJump])
    · intro r e hm
      simp at hm

theorem lineOK_clear2 (gd : GameDef) : ∀ l ∈ clear2Script gd, LineOK gd "clear2" l := by
  intro l hl
  rw [clear2Script] at hl
  rcases List.mem_map.mp hl with ⟨c, _, rfl⟩
  refine lineOK_of_parts gd _ _ ?_ ?_ ?_ ?_
  · simp [nonCondCount, List.filter, Tok.isCond]
  · simp [busy_ne_cReg c]
  · exact okLine_tail_jp
      [.cond (.ceq "pos2" (.const c)), .cmd (.cset (cReg c) (.const 0)),
       .cmd (.cset "pos2" (.const 0))]
      "idle" (gd.lang ++ "_continue") (by simp [Tok.isJump])
  · intro r e hm
    simp at hm

theorem lineOK_shuffleEntry (gd : GameDef) : LineOK gd "shuffle" (shuffleEntry gd) := by
  refine ⟨?_, ?_, ?_, ?_⟩
  · simp [shuffleEntry, nonCondCount, List.filter, Tok.isCond]
  · intro hm
    exfalso
    simp [shuffleEntry] at hm
  · exact okLine_tail_jp
      [.cmd (.cmul "random" (.const 25173)), .cmd (.cadd "random" (.const 13849)),
       .cmd (.cset "rnd" (.reg "random")), .cmd (.cset "pos" (.reg "rnd")),
       .cmd (.cmod "pos" (.const (numCards gd))), .cmd (.cdiv "rnd" (.const (numCards gd)))]
      "shuffle0" "nop" (by simp [Tok.isJump])
  · intro r e hm hnp
    have he : e = Expr.const (numCards gd) := by
      rcases hm with hm | hm <;> simp [shuffleEntry] at hm <;> tauto
    refine ⟨numCards gd, he, ?_⟩
    simp only [numCards]
    omega

theorem lineOK_shuffleState (gd : GameDef) (pos1 : Nat) (hpos : pos1 < numCards gd - 1) :
    ∀ l ∈ shuffleState gd pos1, LineOK gd (shuffleName pos1) l := by
  intro l hl
  rw [shuffleState] at hl
  rcases List.mem_append.mp hl with hl | hl
  · by_cases hg : pos1 < numCards gd - 2
    · rw [if_pos hg] at hl
      simp only [List.mem_singleton] at hl
      subst hl
      refine lineOK_of_parts gd _ _ ?_ ?_ ?_ ?_
      · simp [shuffleGuard, nonCondCount, List.filter, Tok.isCond]
      · simp [shuffleGuard]
      · exact okLine_tail_jp
          [.cond (.clt "rnd" (.const (10 * (numCards gd - pos1 - 1)))),
           .cmd (.cmul "random" (.const 25173)), .cmd (.cadd "random" (.const 13849)),
           .cmd (.cset "rnd" (.reg "random"))]
          (shuffleName pos1) "nop" (by simp [Tok.isJump])
      · intro r e hm
        simp [shuffleGuard] at hm
    · rw [if_neg hg] at hl
      simp at hl
  · rcases List.mem_map.mp hl with ⟨pos2, hpos2, rfl⟩
    rw [List.mem_range'_1] at hpos2
    rw [shuffleSwapLine]
    by_cases hlast : pos1 = numCards gd - 2
    · rw [if_pos hlast]
      by_cases hswap : pos1 = pos2
      · rw [if_neg (by simpa using hswap)]
        refine lineOK_of_parts gd _ _ ?_ ?_ ?_ ?_
        · simp [nonCondCount_append, nonCondCount, List.filter, Tok.isCond]
        · simp
        · exact okLine_tail_pjp
            ([Tok.cond (.ceq "pos" (.const (pos2 - pos1)))] ++ [])
            (gd.lang ++ "_start") "idle" (gd.lang ++ "_player1")
            (by simp [Tok.isJump])
        · intro r e hm
          simp at hm
      · rw [if_pos hswap]
        refine lineOK_of_parts gd _ _ ?_ ?_ ?_ ?_
        · simp [swapCmds, nonCondCount_append, nonCondCount, List.filter, Tok.isCond]
        · simp [swapCmds]
        · exact okLine_tail_pjp
            ([Tok.cond (.ceq "pos" (.const (pos2 - pos1)))] ++ swapCmds pos1 pos2)
            (gd.lang ++ "_start") "idle" (gd.lang ++ "_player1")
            (by simp [swapCmds, Tok.isJump])
        · intro r e hm
          simp [swapCmds] at hm
    · rw [if_neg hlast]
      have hdvd : 2 ≤ numCards gd - pos1 - 1 := by omega
      by_cases hswap : pos1 = pos2
      · rw [if_neg (by simpa using hswap)]
        have hsplit :
            ([Tok.cond (.ceq "pos" (.const (pos2 - pos1)))] ++ [] : List Tok)
              ++ [Tok.cmd (.cset "pos" (.reg "rnd")),
                  Tok.cmd (.cmod "pos" (.const (numCards gd - pos1 - 1))),
                  Tok.cmd (.cdiv "rnd" (.const (numCards gd - pos1 - 1))),
                  Tok.jump (shuffleName (pos1 + 1)), Tok.play "nop"]
            = ([Tok.cond (.ceq "pos" (.const (pos2 - pos1))),
                Tok.cmd (.cset "pos" (.reg "rnd")),
                Tok.cmd (.cmod "pos" (.const (numCards gd - pos1 - 1))),
                Tok.cmd (.cdiv "rnd" (.const (numCards gd - pos1 - 1)))])
              ++ [Tok.jump (shuffleName (pos1 + 1)), Tok.play "nop"] := by simp
        rw [hsplit]
        refine ⟨?_, ?_, ?_, ?_⟩
        · simp [nonCondCount_append, nonCondCount, List.filter, Tok.isCond]
        · intro hm
          exfalso
          simp at hm
        · exact okLine_tail_jp _ _ _ (by simp [Tok.isJump])
        · intro r e hm _
          have he : e = Expr.const (numCards gd - pos1 - 1) := by
            rcases hm with hm | hm <;> simp at hm <;> tauto
          exact ⟨numCards gd - pos1 - 1, he, hdvd⟩
      · rw [if_pos hswap]
        have hsplit :
            ([Tok.cond (.ceq "pos" (.const (pos2 - pos1)))] ++ swapCmds pos1 pos2)
              ++ [Tok.cmd (.cset "pos" (.reg "rnd")),
                  Tok.cmd (.cmod "pos" (.const (numCards gd - pos1 - 1))),
                  Tok.cmd (.cdiv "rnd" (.const (numCards gd - pos1 - 1))),
                  Tok.jump (shuffleName (pos1 + 1)), Tok.play "nop"]
            = (([Tok.cond (.ceq "pos" (.const (pos2 - pos1)))] ++ swapCmds pos1 pos2)
                ++ [Tok.cmd (.cset "pos" (.reg "rnd")),
                    Tok.cmd (.cmod "pos" (.const (numCards gd - pos1 - 1))),
                    Tok.cmd (.cdiv "rnd" (.const (numCards gd - pos1 - 1)))])
              ++ [Tok.jump (shuffleName (pos1 + 1)), Tok.play "nop"] := by simp
        rw [hsplit]
        refine ⟨?_, ?_, ?_, ?_⟩
        · simp [swapCmds, nonCondCount_append, nonCondCount, List.filter, Tok.isCond]
        · intro hm
          exfalso
          simp [swapCmds] at hm
        · exact okLine_tail_jp _ _ _ (by simp [swapCmds, Tok.isJump])
        · intro r e hm _
          have he : e = Expr.const (numCards gd - pos1 - 1) := by
            rcases hm with hm | hm <;> simp [swapCmds] at hm <;> tauto
          exact ⟨numCards gd - pos1 - 1, he, hdvd⟩

/-! ### Restart scripts -/

theorem restartGo_chunks_short (l : List (String × Nat)) :
    ∀ acc, acc.length ≤ 6 → ∀ chunk ∈ restartGo acc l, chunk.length ≤ 6 := by
  induction l with
  | nil =>
    intro acc hacc chunk hc
    simp only [restartGo, List.mem_singleton] at hc
    subst hc
    exact hacc
  | cons x xs ih =>
    intro acc hacc chunk hc
    rw [restartGo] at hc
    by_cases h6 : acc.length = 6
    · rw [if_pos h6] at hc
      rcases List.mem_cons.mp hc with rfl | hc
      · omega
      · exact ih [x] (by simp) chunk hc
    · rw [if_neg h6] at hc
      exact ih (acc ++ [x]) (by simp; omega) chunk hc

theorem restartGo_mem_sub (l : List (String × Nat)) :
    ∀ acc chunk, chunk ∈ restartGo acc l → ∀ rv ∈ chunk, rv ∈ acc ∨ rv ∈ l := by
  induction l with
  | nil =>
    intro acc chunk hc rv hrv
    simp only [restartGo, List.mem_singleton] at hc
    subst hc
    exact Or.inl hrv
  | cons x xs ih =>
    intro acc chunk hc rv hrv
    rw [restartGo] at hc
    by_cases h6 : acc.length = 6
    · rw [if_pos h6] at hc
      rcases List.mem_cons.mp hc with rfl | hc
      · exact Or.inl hrv
      · rcases ih [x] chunk hc rv hrv with h | h
        · simp only [List.mem_singleton] at h
          subst h
          exact Or.inr (by simp)
        · exact Or.inr (by simp [h])
    · rw [if_neg h6] at hc
      rcases ih (acc ++ [x]) chunk hc rv hrv with h | h
      · rcases List.mem_append.mp h with h | h
        · exact Or.inl h
        · simp only [List.mem_singleton] at h
          subst h
          exact Or.inr (by simp)
      · exact Or.inr (by simp [h])

theorem busy_not_in_variablesTbl (gd : GameDef) :
    ∀ rv ∈ variablesTbl gd, rv.1 ≠ "busy" := by
  intro rv hrv
  have h := (List.mem_filter.mp hrv).2
  simpa using h

theorem mem_restartScriptsGo (gd : GameDef) :
    ∀ (cs : List (List (String × Nat))) (i : Nat) (nb : String × ScriptBody),
      nb ∈ restartScriptsGo gd i cs →
      ∃ chunk, chunk ∈ cs ∧
        ((∃ j, nb = (restartName j,
            .one (restartLine chunk [.jump "idle", .play gd.welcome])))
         ∨ (∃ j k, nb = (restartName j,
            .one (restartLine chunk [.jump (restartName k), .play "nop"]))))
  | [], _, nb, h => by simp [restartScriptsGo] at h
  | [chunk], i, nb, h => by
    simp only [restartScriptsGo, List.mem_singleton] at h
    exact ⟨chunk, by simp, Or.inl ⟨i, h⟩⟩
  | chunk :: c2 :: rest, i, nb, h => by
    rw [restartScriptsGo] at h
    rcases List.mem_cons.mp h with h | h
    · exact ⟨chunk, by simp, Or.inr ⟨i, i + 1, h⟩⟩
    · obtain ⟨ch, hch, hh⟩ := mem_restartScriptsGo gd (c2 :: rest) (i + 1) nb h
      refine ⟨ch, ?_, hh⟩
      simp only [List.mem_cons] at hch ⊢
      tauto

theorem nonCondCount_restartAssigns (chunk : List (String × Nat)) :
    nonCondCount (chunk.map fun rv => Tok.cmd (.cset rv.1 (.const rv.2)))
      = chunk.length := by
  induction chunk with
  | nil => rfl
  | cons x xs ih =>
    rw [List.map_cons, nonCondCount_cons]
    simp [ih]
    omega

theorem lineOK_restartLine (gd : GameDef) (name : String) (chunk : List (String × Nat))
    (hsub : ∀ rv ∈ chunk, rv ∈ variablesTbl gd) (hlen : chunk.length ≤ 6)
    (x y : String) : LineOK gd name (restartLine chunk [.jump x, .play y]) := by
  refine lineOK_of_parts gd _ _ ?_ ?_ ?_ ?_
  · rw [restartLine, nonCondCount_append, nonCondCount_restartAssigns]
    simp only [nonCondCount, List.filter, Tok.isCond]
    simp
    omega
  · rw [restartLine]
    intro hm
    rcases List.mem_append.mp hm with hm | hm
    · rcases List.mem_map.mp hm with ⟨rv, hrv, he⟩
      simp only [Tok.cmd.injEq, Cmd.cset.injEq] at he
      exact busy_not_in_variablesTbl gd rv (hsub rv hrv) he.1
    · simp at hm
  · rw [restartLine]
    refine okLine_tail_jp _ _ _ ?_
    intro t ht
    rcases List.mem_map.mp ht with ⟨rv, _, rfl⟩
    rfl
  · intro r e hm
    rw [restartLine] at hm
    rcases hm with hm | hm <;>
    · rcases List.mem_append.mp hm with hm | hm
      · rcases List.mem_map.mp hm with ⟨rv, _, he⟩
        simp at he
      · simp at hm

theorem lineOK_restart (gd : GameDef) :
    ∀ nb ∈ restartScripts gd, ∀ l ∈ nb.2.lines, LineOK gd nb.1 l := by
  intro nb hnb l hl
  obtain ⟨chunk, hch, hcase⟩ := mem_restartScriptsGo gd _ 0 nb hnb
  have hlen : chunk.length ≤ 6 := restartGo_chunks_short _ [] (by simp) chunk hch
  have hsub : ∀ rv ∈ chunk, rv ∈ variablesTbl gd := by
    intro rv hrv
    rcases restartGo_mem_sub _ [] chunk hch rv hrv with h | h
    · simp at h
    · exact h
  rcases hcase with ⟨j, rfl⟩ | ⟨j, k, rfl⟩ <;>
  · simp only [ScriptBody.lines, List.mem_singleton] at hl
    subst hl
    exact lineOK_restartLine gd _ chunk hsub hlen _ _

/-- One scan over the whole generated program: every line satisfies
`LineOK` (command budget, busy discipline, play-pass shape, divisors). -/
theorem scan_lineOK (gd : GameDef) :
    ∀ nb ∈ fullScripts gd, ∀ l ∈ nb.2.lines, LineOK gd nb.1 l := by
  intro nb hnb
  rw [fullScripts] at hnb
  rcases List.mem_append.mp hnb with hnb | hnb
  swap
  · exact lineOK_restart gd nb hnb
  rw [preScripts] at hnb
  rcases List.mem_append.mp hnb with hnb | hnb
  swap
  · simp only [List.mem_cons, List.not_mem_nil, or_false] at hnb
    rcases hnb with rfl | rfl | rfl | rfl | rfl
    · exact fun l hl => lineOK_firstCard gd l hl
    · exact fun l hl => lineOK_secondCard gd l hl
    · exact fun l hl => lineOK_test gd l hl
    · exact fun l hl => lineOK_clear1 gd l hl
    · exact fun l hl => lineOK_clear2 gd l hl
  rcases List.mem_append.mp hnb with hnb | hnb
  swap
  · rcases List.mem_map.mp hnb with ⟨c, _, rfl⟩
    exact fun l hl => lineOK_card gd c l hl
  rcases List.mem_append.mp hnb with hnb | hnb
  swap
  · rcases List.mem_map.mp hnb with ⟨pos1, hp, rfl⟩
    rw [List.mem_range] at hp
    exact fun l hl => lineOK_shuffleState gd pos1 hp l hl
  rcases List.mem_append.mp hnb with hnb | hnb
  swap
  · simp only [List.mem_cons, List.not_mem_nil, or_false] at hnb
    rcases hnb with rfl | rfl | rfl
    · exact fun l hl => lineOK_q gd l hl
    · exact fun l hl => lineOK_r gd l hl
    · intro l hl
      simp only [ScriptBody.lines, List.mem_singleton] at hl
      subst hl
      exact lineOK_shuffleEntry gd
  rcases List.mem_append.mp hnb with hnb | hnb
  · simp only [List.mem_singleton] at hnb
    subst hnb
    exact fun l hl => lineOK_idle gd l hl
  · rcases List.mem_map.mp hnb with ⟨i, _, rfl⟩
    exact fun l hl => lineOK_player gd (i + 1) l hl

theorem cReg_ne_clear2 (k : Nat) : cReg k ≠ "clear2" := by
  intro h
  have hd : ('c' :: natChars (k + 1) k : List Char) = ['c', 'l', 'e', 'a', 'r', '2'] :=
    congrArg String.data h
  injection hd with _ h2
  have hl : 'l' ∈ natChars (k + 1) k := by rw [h2]; simp
  have := natChars_digits (k + 1) k 'l' hl
  simp [digitVal] at this

theorem shuffleName_ne_idle (k : Nat) : shuffleName k ≠ "idle" :=
  data_head_ne rfl rfl (by decide)

theorem shuffleName_ne_q (k : Nat) : shuffleName k ≠ "q" :=
  data_head_ne rfl rfl (by decide)

theorem shuffleName_ne_r (k : Nat) : shuffleName k ≠ "r" :=
  data_head_ne rfl rfl (by decide)

theorem shuffleName_ne_pName (k j : Nat) : shuffleName k ≠ pName j :=
  data_head_ne rfl rfl (by decide)

theorem shuffleName_ne_cReg (k j : Nat) : shuffleName k ≠ cReg j :=
  data_head_ne rfl rfl (by decide)

theorem shuffleName_ne_firstCard (k : Nat) : shuffleName k ≠ "firstCard" :=
  data_head_ne rfl rfl (by decide)

theorem shuffleName_ne_secondCard (k : Nat) : shuffleName k ≠ "secondCard" :=
  data2_ne rfl rfl (by decide)

theorem shuffleName_ne_test (k : Nat) : shuffleName k ≠ "test" :=
  data_head_ne rfl rfl (by decide)

theorem shuffleName_ne_clear1 (k : Nat) : shuffleName k ≠ "clear1" :=
  data_head_ne rfl rfl (by decide)

theorem shuffleName_ne_clear2 (k : Nat) : shuffleName k ≠ "clear2" :=
  data_head_ne rfl rfl (by decide)

/-! ### Claim C2: the script-code table -/

theorem pName_ne_q (k : Nat) : pName k ≠ "q" := data_head_ne rfl rfl (by decide)

theorem pName_ne_r (k : Nat) : pName k ≠ "r" := data_head_ne rfl rfl (by decide)

theorem pName_ne_idle (k : Nat) : pName k ≠ "idle" := data_head_ne rfl rfl (by decide)

theorem pName_ne_shuffle (k : Nat) : pName k ≠ "shuffle" := data_head_ne rfl rfl (by decide)

theorem pName_ne_firstCard (k : Nat) : pName k ≠ "firstCard" :=
  data_head_ne rfl rfl (by decide)

theorem pName_ne_secondCard (k : Nat) : pName k ≠ "secondCard" :=
  data_head_ne rfl rfl (by decide)

theorem pName_ne_test (k : Nat) : pName k ≠ "test" := data_head_ne rfl rfl (by decide)

theorem pName_ne_clear1 (k : Nat) : pName k ≠ "clear1" := data_head_ne rfl rfl (by decide)

theorem pName_ne_clear2 (k : Nat) : pName k ≠ "clear2" := data_head_ne rfl rfl (by decide)

theorem pName_ne_cReg (k j : Nat) : pName k ≠ cReg j := data_head_ne rfl rfl (by decide)

theorem pName_ne_restartName (k j : Nat) : pName k ≠ restartName j :=
  data_head_ne rfl rfl (by decide)

theorem cReg_ne_q (k : Nat) : cReg k ≠ "q" := data_head_ne rfl rfl (by decide)

theorem cReg_ne_r (k : Nat) : cReg k ≠ "r" := data_head_ne rfl rfl (by decide)

theorem cReg_ne_idle (k : Nat) : cReg k ≠ "idle" := data_head_ne rfl rfl (by decide)

theorem cReg_ne_shuffle (k : Nat) : cReg k ≠ "shuffle" := data_head_ne rfl rfl (by decide)

theorem cReg_ne_firstCard (k : Nat) : cReg k ≠ "firstCard" :=
  data_head_ne rfl rfl (by decide)

theorem cReg_ne_secondCard (k : Nat) : cReg k ≠ "secondCard" :=
  data_head_ne rfl rfl (by decide)

theorem cReg_ne_test (k : Nat) : cReg k ≠ "test" := data_head_ne rfl rfl (by decide)

theorem cReg_ne_restartName (k j : Nat) : cReg k ≠ restartName j :=
  data_head_ne rfl rfl (by decide)

theorem shuffleName_ne_restartName (k j : Nat) : shuffleName k ≠ restartName j :=
  data_head_ne rfl rfl (by decide)

theorem restartName_ne_idle (k : Nat) : restartName k ≠ "idle" :=
  data_head_ne rfl rfl (by decide)

theorem restartName_ne_q (k : Nat) : restartName k ≠ "q" :=
  data_head_ne rfl rfl (by decide)

theorem restartName_ne_shuffle (k : Nat) : restartName k ≠ "shuffle" :=
  data_head_ne rfl rfl (by decide)

theorem restartName_ne_firstCard (k : Nat) : restartName k ≠ "firstCard" :=
  data_head_ne rfl rfl (by decide)

theorem restartName_ne_secondCard (k : Nat) : restartName k ≠ "secondCard" :=
  data_head_ne rfl rfl (by decide)

theorem restartName_ne_test (k : Nat) : restartName k ≠ "test" :=
  data_head_ne rfl rfl (by decide)

theorem restartName_ne_clear1 (k : Nat) : restartName k ≠ "clear1" :=
  data_head_ne rfl rfl (by decide)

theorem restartName_ne_clear2 (k : Nat) : restartName k ≠ "clear2" :=
  data_head_ne rfl rfl (by decide)

theorem cReg_ne_pName (k j : Nat) : cReg k ≠ pName j := data_head_ne rfl rfl (by decide)

theorem lookupS_append_left (m m' : List (String × Nat)) (k : String) (v : Nat)
    (h : lookupS m k = some v) : lookupS (m ++ m') k = some v := by
  induction m with
  | nil => simp [lookupS] at h
  | cons x m ih =>
    obtain ⟨xk, xv⟩ := x
    rw [lookupS] at h
    rw [List.cons_append, lookupS]
    by_cases he : xk = k
    · rw [if_pos he] at h ⊢
      exact h
    · rw [if_neg he] at h ⊢
      exact ih h

theorem lookupS_append_right (m m' : List (String × Nat)) (k : String)
    (h : lookupS m k = none) : lookupS (m ++ m') k = lookupS m' k := by
  induction m with
  | nil => rfl
  | cons x m ih =>
    obtain ⟨xk, xv⟩ := x
    rw [lookupS] at h
    rw [List.cons_append, lookupS]
    by_cases he : xk = k
    · rw [if_pos he] at h
      simp at h
    · rw [if_neg he] at h ⊢
      exact ih h

theorem lookupS_append_single_ne (m : List (String × Nat)) (n0 : String) (c0 : Nat)
    (s : String) (hne : s ≠ n0) : lookupS (m ++ [(n0, c0)]) s = lookupS m s := by
  cases h : lookupS m s with
  | some v => exact lookupS_append_left _ _ _ _ h
  | none =>
    rw [lookupS_append_right _ _ _ h, lookupS, if_neg (Ne.symm hne), lookupS]

theorem insertAbsent_pres (m : List (String × Nat)) (k2 : String) (v2 : Nat)
    (k : String) (v : Nat) (h : lookupS m k = some v) :
    lookupS (insertAbsent m k2 v2) k = some v := by
  rw [insertAbsent]
  by_cases hc : (lookupS m k2).isSome
  · rw [if_pos hc]
    exact h
  · rw [if_neg hc]
    exact lookupS_append_left _ _ _ _ h

theorem insertAbsent_self (m : List (String × Nat)) (k : String) (v : Nat)
    (h : lookupS m k = none) : lookupS (insertAbsent m k v) k = some v := by
  rw [insertAbsent, if_neg (by simp [h]), lookupS_append_right _ _ _ h, lookupS,
    if_pos rfl]

theorem insertAbsent_none (m : List (String × Nat)) (k2 : String) (v2 : Nat)
    (k : String) (h : lookupS m k = none) (hne : k2 ≠ k) :
    lookupS (insertAbsent m k2 v2) k = none := by
  rw [insertAbsent]
  by_cases hc : (lookupS m k2).isSome
  · rw [if_pos hc]
    exact h
  · rw [if_neg hc, lookupS_append_right _ _ _ h, lookupS, if_neg hne, lookupS]

theorem foldl_insertAbsent_pres (f : Nat → String) (v : Nat → Nat) (l : List Nat)
    (m : List (String × Nat)) (k : String) (c : Nat) (h : lookupS m k = some c) :
    lookupS (l.foldl (fun m j => insertAbsent m (f j) (v j)) m) k = some c := by
  induction l generalizing m with
  | nil => exact h
  | cons j l ih => exact ih _ (insertAbsent_pres _ _ _ _ _ h)

theorem foldl_insertAbsent_none (f : Nat → String) (v : Nat → Nat) (l : List Nat)
    (m : List (String × Nat)) (k : String) (h : lookupS m k = none)
    (hne : ∀ j ∈ l, f j ≠ k) :
    lookupS (l.foldl (fun m j => insertAbsent m (f j) (v j)) m) k = none := by
  induction l generalizing m with
  | nil => exact h
  | cons j l ih =>
    exact ih _ (insertAbsent_none _ _ _ _ h (hne j (by simp)))
      (fun j' hj' => hne j' (by simp [hj']))

theorem foldl_insertAbsent_get (f : Nat → String) (v : Nat → Nat) :
    ∀ (l : List Nat) (m : List (String × Nat)) (i : Nat), i ∈ l →
      lookupS m (f i) = none → (∀ j ∈ l, f j = f i → j = i) →
      lookupS (l.foldl (fun m j => insertAbsent m (f j) (v j)) m) (f i) = some (v i) := by
  intro l
  induction l with
  | nil =>
    intro m i hi
    simp at hi
  | cons j l ih =>
    intro m i hi hm hinj
    rw [List.foldl_cons]
    rcases List.mem_cons.mp hi with rfl | hi'
    · exact foldl_insertAbsent_pres _ _ _ _ _ _ (insertAbsent_self _ _ _ hm)
    · by_cases hji : j = i
      · subst hji
        exact foldl_insertAbsent_pres _ _ _ _ _ _ (insertAbsent_self _ _ _ hm)
      · have hfne : f j ≠ f i := fun he => hji (hinj j (by simp) he)
        exact ih _ i hi' (insertAbsent_none _ _ _ _ hm hfne)
          (fun j' hj' => hinj j' (by simp [hj']))

theorem foldl_restStep_pres (names : List String) (mc : List (String × Nat) × Nat)
    (k : String) (c : Nat) (h : lookupS mc.1 k = some c) :
    lookupS ((names.foldl codesRestStep mc).1) k = some c := by
  induction names generalizing mc with
  | nil => exact h
  | cons nm names ih =>
    rw [List.foldl_cons]
    apply ih
    rw [codesRestStep]
    by_cases hc : (lookupS mc.1 nm).isSome
    · rw [if_pos hc]
      exact h
    · rw [if_neg hc]
      exact lookupS_append_left _ _ _ _ h

theorem assignCodes_frame (gd : GameDef) (m0 : List (String × Nat)) (n : String)
    (c : Nat) (h : lookupS m0 n = some c) : lookupS (assignCodes gd m0) n = some c := by
  have h1 : lookupS (codesQRP gd m0) n = some c := by
    rw [codesQRP]
    exact foldl_insertAbsent_pres _ _ _ _ _ _
      (insertAbsent_pres _ _ _ _ _ (insertAbsent_pres _ _ _ _ _ h))
  have h2 : lookupS (codesCards gd m0) n = some c := by
    rw [codesCards]
    exact foldl_insertAbsent_pres _ _ _ _ _ _ h1
  rw [assignCodes]
  exact foldl_restStep_pres _ _ _ _ h2

theorem assignCodes_q (gd : GameDef) (m0 : List (String × Nat))
    (h : lookupS m0 "q" = none) : lookupS (assignCodes gd m0) "q" = some 2000 := by
  have h1 : lookupS (codesQRP gd m0) "q" = some 2000 := by
    rw [codesQRP]
    exact foldl_insertAbsent_pres _ _ _ _ _ _
      (insertAbsent_pres _ _ _ _ _ (insertAbsent_self _ _ _ h))
  have h2 : lookupS (codesCards gd m0) "q" = some 2000 := by
    rw [codesCards]
    exact foldl_insertAbsent_pres _ _ _ _ _ _ h1
  rw [assignCodes]
  exact foldl_restStep_pres _ _ _ _ h2

theorem assignCodes_r (gd : GameDef) (m0 : List (String × Nat))
    (h : lookupS m0 "r" = none) : lookupS (assignCodes gd m0) "r" = some 2001 := by
  have h1 : lookupS (codesQRP gd m0) "r" = some 2001 := by
    rw [codesQRP]
    exact foldl_insertAbsent_pres _ _ _ _ _ _
      (insertAbsent_self _ _ _ (insertAbsent_none _ _ _ _ h (by decide)))
  have h2 : lookupS (codesCards gd m0) "r" = some 2001 := by
    rw [codesCards]
    exact foldl_insertAbsent_pres _ _ _ _ _ _ h1
  rw [assignCodes]
  exact foldl_restStep_pres _ _ _ _ h2

theorem assignCodes_p (gd : GameDef) (m0 : List (String × Nat)) (i : Nat)
    (hi : i < gd.players) (h : lookupS m0 (pName (i + 1)) = none) :
    lookupS (assignCodes gd m0) (pName (i + 1)) = some (2002 + i) := by
  have h0 : lookupS (insertAbsent (insertAbsent m0 "q" 2000) "r" 2001)
      (pName (i + 1)) = none :=
    insertAbsent_none _ _ _ _
      (insertAbsent_none _ _ _ _ h (Ne.symm (pName_ne_q (i + 1))))
      (Ne.symm (pName_ne_r (i + 1)))
  have h1 : lookupS (codesQRP gd m0) (pName (i + 1)) = some (2002 + i) := by
    rw [codesQRP]
    exact foldl_insertAbsent_get (fun j => pName (j + 1)) (fun j => 2002 + j) _ _ i
      (List.mem_range.mpr hi) h0
      (fun j _ he => by have := pName_inj he; omega)
  have h2 : lookupS (codesCards gd m0) (pName (i + 1)) = some (2002 + i) := by
    rw [codesCards]
    exact foldl_insertAbsent_pres _ _ _ _ _ _ h1
  rw [assignCodes]
  exact foldl_restStep_pres _ _ _ _ h2

theorem assignCodes_c (gd : GameDef) (m0 : List (String × Nat)) (c : Nat)
    (hc : c < numCards gd) (h : lookupS m0 (cReg c) = none) :
    lookupS (assignCodes gd m0) (cReg c) = some (3000 + c) := by
  have h1 : lookupS (codesQRP gd m0) (cReg c) = none := by
    rw [codesQRP]
    refine foldl_insertAbsent_none _ _ _ _ _ ?_ ?_
    · exact insertAbsent_none _ _ _ _
        (insertAbsent_none _ _ _ _ h (Ne.symm (cReg_ne_q c)))
        (Ne.symm (cReg_ne_r c))
    · intro j _
      exact Ne.symm (cReg_ne_pName c (j + 1))
  have h2 : lookupS (codesCards gd m0) (cReg c) = some (3000 + c) := by
    rw [codesCards]
    exact foldl_insertAbsent_get (fun j => cReg j) (fun j => 3000 + j) _ _ c
      (List.mem_range.mpr hc) h1
      (fun j _ he => cReg_inj he)
  rw [assignCodes]
  exact foldl_restStep_pres _ _ _ _ h2

theorem preScripts_names (gd : GameDef) :
    (preScripts gd).map Prod.fst
      = "idle" :: ((List.range gd.players).map (fun i => pName (i + 1))
        ++ ("q" :: "r" :: "shuffle" :: ((List.range (numCards gd - 1)).map shuffleName
        ++ ((List.range (numCards gd)).map cReg
        ++ ["firstCard", "secondCard", "test", "clear1", "clear2"])))) := by
  simp [preScripts, List.map_append, List.map_map, Function.comp_def]

theorem restartScriptsGo_names (gd : GameDef) :
    ∀ (cs : List (List (String × Nat))) (i : Nat),
      (restartScriptsGo gd i cs).map Prod.fst = (List.range' i cs.length).map restartName
  | [], _ => rfl
  | [chunk], i => by simp [restartScriptsGo, List.range']
  | chunk :: c2 :: rest, i => by
    rw [restartScriptsGo, List.map_cons, restartScriptsGo_names gd (c2 :: rest) (i + 1)]
    simp [List.range']

theorem fullScripts_names (gd : GameDef) :
    (fullScripts gd).map Prod.fst
      = "idle" :: ((List.range gd.players).map (fun i => pName (i + 1))
        ++ ("q" :: "r" :: "shuffle" :: ((List.range (numCards gd - 1)).map shuffleName
        ++ ((List.range (numCards gd)).map cReg
        ++ ("firstCard" :: "secondCard" :: "test" :: "clear1" :: "clear2" ::
            (List.range' 0 (restartChunks gd).length).map restartName))))) := by
  rw [fullScripts, List.map_append, preScripts_names, restartScripts,
    restartScriptsGo_names gd (restartChunks gd) 0]
  simp [List.append_assoc]

theorem namesNodup (gd : GameDef) : ((fullScripts gd).map Prod.fst).Nodup := by
  rw [fullScripts_names]
  have hpinj : Function.Injective (fun i => pName (i + 1)) := by
    intro a b h
    have := pName_inj h
    omega
  have hsinj : Function.Injective shuffleName := fun a b h => shuffleName_inj h
  have hcinj : Function.Injective cReg := fun a b h => cReg_inj h
  have hrinj : Function.Injective restartName := fun a b h => restartName_inj h
  rw [List.nodup_cons]
  constructor
  · intro hmem
    simp only [List.mem_append, List.mem_cons, List.mem_map, List.mem_range,
      List.mem_range'_1, List.not_mem_nil, or_false] at hmem
    rcases hmem with ⟨i, _, he⟩ | he | he | he | ⟨i, _, he⟩ | ⟨i, _, he⟩
      | he | he | he | he | he | ⟨i, _, he⟩ <;>
    first
      | exact absurd he (by decide)
      | exact pName_ne_idle (i + 1) he
      | exact shuffleName_ne_idle i he
      | exact cReg_ne_idle i he
      | exact restartName_ne_idle i he
  rw [List.nodup_append]
  refine ⟨(List.nodup_range gd.players).map hpinj, ?_, ?_⟩
  swap
  · intro s hs hs2
    rcases List.mem_map.mp hs with ⟨i, _, rfl⟩
    simp only [List.mem_append, List.mem_cons, List.mem_map, List.mem_range,
      List.mem_range'_1, List.not_mem_nil, or_false] at hs2
    rcases hs2 with he | he | he | ⟨j, _, he⟩ | ⟨j, _, he⟩
      | he | he | he | he | he | ⟨j, _, he⟩ <;>
    first
      | exact pName_ne_q (i + 1) he
      | exact pName_ne_r (i + 1) he
      | exact pName_ne_shuffle (i + 1) he
      | exact shuffleName_ne_pName j (i + 1) he
      | exact pName_ne_cReg (i + 1) j he.symm
      | exact pName_ne_firstCard (i + 1) he
      | exact pName_ne_secondCard (i + 1) he
      | exact pName_ne_test (i + 1) he
      | exact pName_ne_clear1 (i + 1) he
      | exact pName_ne_clear2 (i + 1) he
      | exact pName_ne_restartName (i + 1) j he.symm
  rw [List.nodup_cons]
  constructor
  · intro hmem
    simp only [List.mem_append, List.mem_cons, List.mem_map, List.mem_range,
      List.mem_range'_1, List.not_mem_nil, or_false] at hmem
    rcases hmem with he | he | ⟨i, _, he⟩ | ⟨i, _, he⟩
      | he | he | he | he | he | ⟨i, _, he⟩ <;>
    first
      | exact absurd he (by decide)
      | exact shuffleName_ne_q i he
      | exact cReg_ne_q i he
      | exact restartName_ne_q i he
  rw [List.nodup_cons]
  constructor
  · intro hmem
    simp only [List.mem_append, List.mem_cons, List.mem_map, List.mem_range,
      List.mem_range'_1, List.not_mem_nil, or_false] at hmem
    rcases hmem with he | ⟨i, _, he⟩ | ⟨i, _, he⟩
      | he | he | he | he | he | ⟨i, _, he⟩ <;>
    first
      | exact absurd he (by decide)
      | exact shuffleName_ne_r i he
      | exact cReg_ne_r i he
      | exact restartName_ne_r i he
  rw [List.nodup_cons]
  constructor
  · intro hmem
    simp only [List.mem_append, List.mem_cons, List.mem_map, List.mem_range,
      List.mem_range'_1, List.not_mem_nil, or_false] at hmem
    rcases hmem with ⟨i, _, he⟩ | ⟨i, _, he⟩
      | he | he | he | he | he | ⟨i, _, he⟩ <;>
    first
      | exact absurd he (by decide)
      | exact shuffleName_ne_shuffle i he
      | exact cReg_ne_shuffle i he
      | exact restartName_ne_shuffle i he
  rw [List.nodup_append]
  refine ⟨(List.nodup_range (numCards gd - 1)).map hsinj, ?_, ?_⟩
  swap
  · intro s hs hs2
    rcases List.mem_map.mp hs with ⟨i, _, rfl⟩
    simp only [List.mem_append, List.mem_cons, List.mem_map, List.mem_range,
      List.mem_range'_1, List.not_mem_nil, or_false] at hs2
    rcases hs2 with ⟨j, _, he⟩ | he | he | he | he | he | ⟨j, _, he⟩ <;>
    first
      | exact shuffleName_ne_cReg i j he.symm
      | exact shuffleName_ne_firstCard i he
      | exact shuffleName_ne_secondCard i he
      | exact shuffleName_ne_test i he
      | exact shuffleName_ne_clear1 i he
      | exact shuffleName_ne_clear2 i he
      | exact shuffleName_ne_restartName i j he.symm
  rw [List.nodup_append]
  refine ⟨(List.nodup_range (numCards gd)).map hcinj, ?_, ?_⟩
  swap
  · intro s hs hs2
    rcases List.mem_map.mp hs with ⟨i, _, rfl⟩
    simp only [List.mem_cons, List.mem_map, List.mem_range'_1,
      List.not_mem_nil, or_false] at hs2
    rcases hs2 with he | he | he | he | he | ⟨j, _, he⟩ <;>
    first
      | exact cReg_ne_firstCard i he
      | exact cReg_ne_secondCard i he
      | exact cReg_ne_test i he
      | exact cReg_ne_clear1 i he
      | exact cReg_ne_clear2 i he
      | exact cReg_ne_restartName i j he.symm
  rw [List.nodup_cons]
  constructor
  · intro hmem
    simp only [List.mem_cons, List.mem_map, List.mem_range'_1,
      List.not_mem_nil, or_false] at hmem
    rcases hmem with he | he | he | he | ⟨i, _, he⟩ <;>
    first
      | exact absurd he (by decide)
      | exact restartName_ne_firstCard i he
  rw [List.nodup_cons]
  constructor
  · intro hmem
    simp only [List.mem_cons, List.mem_map, List.mem_range'_1,
      List.not_mem_nil, or_false] at hmem
    rcases hmem with he | he | he | ⟨i, _, he⟩ <;>
    first
      | exact absurd he (by decide)
      | exact restartName_ne_secondCard i he
  rw [List.nodup_cons]
  constructor
  · intro hmem
    simp only [List.mem_cons, List.mem_map, List.mem_range'_1,
      List.not_mem_nil, or_false] at hmem
    rcases hmem with he | he | ⟨i, _, he⟩ <;>
    first
      | exact absurd he (by decide)
      | exact restartName_ne_test i he
  rw [List.nodup_cons]
  constructor
  · intro hmem
    simp only [List.mem_cons, List.mem_map, List.mem_range'_1,
      List.not_mem_nil, or_false] at hmem
    rcases hmem with he | ⟨i, _, he⟩ <;>
    first
      | exact absurd he (by decide)
      | exact restartName_ne_clear1 i he
  rw [List.nodup_cons]
  constructor
  · intro hmem
    simp only [List.mem_map, List.mem_range'_1] at hmem
    obtain ⟨i, _, he⟩ := hmem
    exact restartName_ne_clear2 i he
  exact (List.nodup_range' _ _).map hrinj

theorem foldl_restStep_seq :
    ∀ (names : List String) (m : List (String × Nat)) (c0 : Nat), names.Nodup →
      ∀ nm ∈ names.filter (fun s => (lookupS m s).isNone),
        lookupS ((names.foldl codesRestStep (m, c0)).1) nm
          = some (c0 + (names.filter (fun s => (lookupS m s).isNone)).indexOf nm) := by
  intro names
  induction names with
  | nil =>
    intro m c0 _ nm h
    simp at h
  | cons n0 names ih =>
    intro m c0 hnd nm hnm
    have hnd' := List.nodup_cons.mp hnd
    rw [List.foldl_cons]
    by_cases h0 : lookupS m n0 = none
    · have hstep : codesRestStep (m, c0) n0 = (m ++ [(n0, c0)], c0 + 1) := by
        rw [codesRestStep, if_neg (by simp [h0])]
      have hfilter_head : (n0 :: names).filter (fun s => (lookupS m s).isNone)
          = n0 :: names.filter (fun s => (lookupS m s).isNone) := by
        rw [List.filter_cons, if_pos (by simp [h0])]
      have hfilters : names.filter (fun s => (lookupS (m ++ [(n0, c0)]) s).isNone)
          = names.filter (fun s => (lookupS m s).isNone) := by
        apply List.filter_congr
        intro s hs
        rw [lookupS_append_single_ne m n0 c0 s (fun he => hnd'.1 (he ▸ hs))]
      rcases List.mem_cons.mp (hfilter_head ▸ hnm) with rfl | hnm'
      · rw [hstep, hfilter_head, List.indexOf_cons_self]
        have hbase : lookupS (m ++ [(nm, c0)]) nm = some c0 := by
          rw [lookupS_append_right _ _ _ h0, lookupS, if_pos rfl]
        simpa using foldl_restStep_pres names (m ++ [(nm, c0)], c0 + 1) nm c0 hbase
      · rw [hstep, hfilter_head]
        have hne : nm ≠ n0 :=
          fun he => hnd'.1 (he ▸ List.mem_of_mem_filter hnm')
        have hih := ih (m ++ [(n0, c0)]) (c0 + 1) hnd'.2 nm (by rw [hfilters]; exact hnm')
        rw [hfilters] at hih
        rw [hih, List.indexOf_cons_ne _ (Ne.symm hne)]
        simp only [Option.some.injEq]
        omega
    · have hstep : codesRestStep (m, c0) n0 = (m, c0) := by
        rw [codesRestStep, if_pos (by simp [Option.isSome_iff_ne_none, h0])]
      have hfilter_head : (n0 :: names).filter (fun s => (lookupS m s).isNone)
          = names.filter (fun s => (lookupS m s).isNone) := by
        rw [List.filter_cons, if_neg (by simp [Option.isNone_iff_eq_none, h0])]
      rw [hstep, hfilter_head]
      exact ih m c0 hnd'.2 nm (hfilter_head ▸ hnm)

theorem assignCodes_rest_seq (gd : GameDef) (m0 : List (String × Nat)) :
    (remNames gd m0).Nodup ∧
      ∀ nm ∈ remNames gd m0,
        lookupS (assignCodes gd m0) nm = some (4000 + (remNames gd m0).indexOf nm) := by
  have hnd := namesNodup gd
  refine ⟨List.Nodup.filter _ hnd, ?_⟩
  intro nm hnm
  rw [assignCodes]
  exact foldl_restStep_seq _ _ _ hnd nm hnm

/-- C2: merging a prior script-code table never changes a code present in
the input; it only adds codes for absent names: q at 2000, r at 2001,
player p{i+1} at 2002+i, card c{c} at 3000+c, and every script still
lacking a code after the card pass gets 4000, 4001, ... in script-table
order. -/
theorem C2_codes_merge (gd : GameDef) (m0 : List (String × Nat)) :
    (∀ n c, lookupS m0 n = some c → lookupS (assignCodes gd m0) n = some c)
    ∧ (∀ n, lookupS (assignCodes gd m0) n ≠ lookupS m0 n → lookupS m0 n = none)
    ∧ (lookupS m0 "q" = none → lookupS (assignCodes gd m0) "q" = some 2000)
    ∧ (lookupS m0 "r" = none → lookupS (assignCodes gd m0) "r" = some 2001)
    ∧ (∀ i, i < gd.players → lookupS m0 (pName (i + 1)) = none →
        lookupS (assignCodes gd m0) (pName (i + 1)) = some (2002 + i))
    ∧ (∀ c, c < numCards gd → lookupS m0 (cReg c) = none →
        lookupS (assignCodes gd m0) (cReg c) = some (3000 + c))
    ∧ ((remNames gd m0).Nodup ∧ ∀ nm ∈ remNames gd m0,
        lookupS (assignCodes gd m0) nm = some (4000 + (remNames gd m0).indexOf nm)) := by
  refine ⟨assignCodes_frame gd m0, ?_, assignCodes_q gd m0, assignCodes_r gd m0,
    fun i hi => assignCodes_p gd m0 i hi, fun c hc => assignCodes_c gd m0 c hc,
    assignCodes_rest_seq gd m0⟩
  intro n hch
  cases h : lookupS m0 n with
  | none => rfl
  | some c =>
    exact absurd (by rw [assignCodes_frame gd m0 n c h, h]) hch

/-- C2 (witness): merging the table q ↦ 1234 into the smallest game keeps
q at 1234 and adds r, p1 and c0 at their scheme codes. -/
theorem C2_witness :
    lookupS (assignCodes gdOne [("q", 1234)]) "q" = some 1234
      ∧ lookupS (assignCodes gdOne [("q", 1234)]) "r" = some 2001
      ∧ lookupS (assignCodes gdOne [("q", 1234)]) (pName 1) = some (2002 + 0)
      ∧ lookupS (assignCodes gdOne [("q", 1234)]) (cReg 0) = some (3000 + 0) :=
  ⟨(C2_codes_merge gdOne [("q", 1234)]).1 "q" 1234 (by decide),
   (C2_codes_merge gdOne [("q", 1234)]).2.2.2.1 (by decide),
   (C2_codes_merge gdOne [("q", 1234)]).2.2.2.2.1 0 (by decide) (by decide),
   (C2_codes_merge gdOne [("q", 1234)]).2.2.2.2.2.1 0 (by decide) (by decide)⟩

/-! ### Claim C4: the winner computation -/

theorem firstHold_append_none_eq (st : String → Int) (A B : List (List Tok))
    (hA : firstHold st A = none) :
    firstHold st (A ++ B) = (firstHold st B).map (· + A.length) := by
  cases hfb : firstHold st B with
  | none =>
    simp only [Option.map_none']
    rw [firstHold_eq_none_iff] at hA hfb ⊢
    intro l hl
    rcases List.mem_append.mp hl with hl | hl
    · exact hA l hl
    · exact hfb l hl
  | some n =>
    rw [firstHold_append_shift st A B n hA hfb]
    simp [Nat.add_comm]

theorem qNotStarted_not_holds (gd : GameDef) (st : String → Int)
    (hpl : st "players" ≠ 0) : lineHolds st (qNotStarted gd) = false := by
  simp [qNotStarted, lineHolds, tokHolds, evalCond, evalExpr, hpl]

theorem qOngoing_not_holds (gd : GameDef) (st : String → Int) (p : Nat)
    (hr : st "remaining" ≤ 0) : lineHolds st (qOngoing gd p) = false := by
  have h : ¬ ((0 : Int) < st "remaining") := by omega
  simp [qOngoing, lineHolds, tokHolds, evalCond, evalExpr, h]

theorem qDraw_holds (gd : GameDef) (st : String → Int) (hb : st "busy" = 0) :
    lineHolds st (qDraw gd) = true := by
  simp [qDraw, lineHolds, tokHolds, evalCond, evalExpr, hb]

theorem qWinner_holds_iff (gd : GameDef) (st : String → Int) (p : Nat)
    (hb : st "busy" = 0) :
    lineHolds st (qWinner gd p) = true
      ↔ ∀ j, 1 ≤ j → j ≤ gd.players → j ≠ p → st (pairsReg j) < st (pairsReg p) := by
  simp only [qWinner, lineHolds, List.all_eq_true]
  constructor
  · intro h j h1 h2 h3
    have hj := h (Tok.cond (.cgt (pairsReg p) (.reg (pairsReg j))))
      (by
        apply List.mem_cons.mpr
        right
        apply List.mem_append.mpr
        left
        exact List.mem_map.mpr ⟨j, List.mem_filter.mpr
          ⟨List.mem_range'_1.mpr ⟨h1, by omega⟩, by simpa using fun he => h3 he.symm⟩, rfl⟩)
    simpa [tokHolds, evalCond, evalExpr] using hj
  · intro h t ht
    rcases List.mem_cons.mp ht with rfl | ht
    · simp [tokHolds, evalCond, evalExpr, hb]
    rcases List.mem_append.mp ht with ht | ht
    · rcases List.mem_map.mp ht with ⟨o, ho, rfl⟩
      have ho2 := List.mem_filter.mp ho
      rw [List.mem_range'_1] at ho2
      have hne : o ≠ p := by
        have := ho2.2
        simp only [bne_iff_ne] at this
        exact fun he => this he.symm
      have := h o ho2.1.1 (by omega) hne
      simp only [tokHolds, evalCond, evalExpr, decide_eq_true_eq]
      omega
    · simp only [List.mem_cons, List.not_mem_nil, or_false] at ht
      rcases ht with rfl | rfl | rfl <;> rfl

theorem firstHold_win_seg (gd : GameDef) (st : String → Int) (hb : st "busy" = 0)
    (k : Nat) (hk1 : 1 ≤ k) (hk2 : k ≤ gd.players)
    (hW : ∀ j, 1 ≤ j → j ≤ gd.players → j ≠ k → st (pairsReg j) < st (pairsReg k)) :
    firstHold st ((List.range' 1 gd.players).map (qWinner gd)) = some (k - 1) := by
  rw [firstHold_eq_some_iff]
  refine ⟨by simp [List.length_range']; omega, ?_, ?_⟩
  · rw [getD_map_range' _ _ _ _ (by omega)]
    have hkk : 1 + (k - 1) = k := by omega
    rw [hkk]
    exact (qWinner_holds_iff gd st k hb).mpr hW
  · intro i hi
    rw [getD_map_range' _ _ _ _ (by omega)]
    intro hhold
    have hWi := (qWinner_holds_iff gd st (1 + i) hb).mp hhold
    have h1 : st (pairsReg k) < st (pairsReg (1 + i)) := hWi k hk1 hk2 (by omega)
    have h2 : st (pairsReg (1 + i)) < st (pairsReg k) :=
      hW (1 + i) (by omega) (by omega) (by omega)
    omega

theorem qScript_prefix_none (gd : GameDef) (st : String → Int)
    (hpl : st "players" ≠ 0) (hr : st "remaining" ≤ 0) :
    firstHold st
      ([qNotStarted gd] ++ (List.range' 1 gd.players).map (qOngoing gd)) = none := by
  rw [firstHold_eq_none_iff]
  intro l hl
  rcases List.mem_append.mp hl with hl | hl
  · simp only [List.mem_singleton] at hl
    subst hl
    simp [qNotStarted_not_holds gd st hpl]
  · rcases List.mem_map.mp hl with ⟨p, _, rfl⟩
    simp [qOngoing_not_holds gd st p hr]

theorem qScript_assoc (gd : GameDef) :
    qScript gd
      = ([qNotStarted gd] ++ (List.range' 1 gd.players).map (qOngoing gd))
        ++ ((List.range' 1 gd.players).map (qWinner gd) ++ [qDraw gd]) := by
  simp [qScript]

theorem qScript_fires_winner (gd : GameDef) (st : String → Int)
    (hb : st "busy" = 0) (hpl : st "players" ≠ 0) (hr : st "remaining" ≤ 0)
    (k : Nat) (hk1 : 1 ≤ k) (hk2 : k ≤ gd.players)
    (hW : ∀ j, 1 ≤ j → j ≤ gd.players → j ≠ k → st (pairsReg j) < st (pairsReg k)) :
    firstHold st (qScript gd) = some (gd.players + k) := by
  rw [qScript_assoc gd,
    firstHold_append_none_eq st _ _ (qScript_prefix_none gd st hpl hr),
    firstHold_append_some st _ _ _ (firstHold_win_seg gd st hb k hk1 hk2 hW)]
  simp only [Option.map_some', Option.some.injEq, List.length_append,
    List.length_singleton, List.length_map, List.length_range']
  omega

theorem qScript_fires_draw (gd : GameDef) (st : String → Int)
    (hb : st "busy" = 0) (hpl : st "players" ≠ 0) (hr : st "remaining" ≤ 0)
    (hnoW : ∀ k, 1 ≤ k → k ≤ gd.players →
      ¬ ∀ j, 1 ≤ j → j ≤ gd.players → j ≠ k → st (pairsReg j) < st (pairsReg k)) :
    firstHold st (qScript gd) = some (2 * gd.players + 1) := by
  have hwin : firstHold st ((List.range' 1 gd.players).map (qWinner gd)) = none := by
    rw [firstHold_eq_none_iff]
    intro l hl
    rcases List.mem_map.mp hl with ⟨p, hp, rfl⟩
    rw [List.mem_range'_1] at hp
    intro hhold
    exact hnoW p hp.1 (by omega) ((qWinner_holds_iff gd st p hb).mp hhold)
  have hdraw : firstHold st [qDraw gd] = some 0 := by
    rw [firstHold_cons, if_pos (qDraw_holds gd st hb)]
  rw [qScript_assoc gd,
    firstHold_append_none_eq st _ _ (qScript_prefix_none gd st hpl hr),
    firstHold_append_none_eq st _ _ hwin, hdraw]
  simp only [Option.map_some', Option.some.injEq, List.length_append,
    List.length_singleton, List.length_map, List.length_range']
  omega

/-- C4: in a finished game (busy clear, players chosen, no pairs
remaining), the query script fires player k's winner line — at index
players+k, after the not-started guard and the per-player ongoing lines —
exactly when k's pair count strictly exceeds every other player's, and
fires the draw line (index 2*players+1) exactly when no player strictly
exceeds all others. -/
theorem C4_winner_computation (gd : GameDef) (st : String → Int)
    (hb : st "busy" = 0) (hpl : st "players" ≠ 0) (hr : st "remaining" ≤ 0) :
    (∀ k, 1 ≤ k → k ≤ gd.players →
      (firstHold st (qScript gd) = some (gd.players + k)
        ↔ ∀ j, 1 ≤ j → j ≤ gd.players → j ≠ k → st (pairsReg j) < st (pairsReg k)))
    ∧ (firstHold st (qScript gd) = some (2 * gd.players + 1)
        ↔ ¬ ∃ k, 1 ≤ k ∧ k ≤ gd.players ∧
            ∀ j, 1 ≤ j → j ≤ gd.players → j ≠ k → st (pairsReg j) < st (pairsReg k)) := by
  constructor
  · intro k hk1 hk2
    constructor
    · intro h
      by_cases hex : ∃ k', 1 ≤ k' ∧ k' ≤ gd.players ∧
          ∀ j, 1 ≤ j → j ≤ gd.players → j ≠ k' → st (pairsReg j) < st (pairsReg k')
      · obtain ⟨k', h1, h2, hW'⟩ := hex
        rw [qScript_fires_winner gd st hb hpl hr k' h1 h2 hW'] at h
        simp only [Option.some.injEq] at h
        have hkk : k = k' := by omega
        subst hkk
        exact hW'
      · rw [qScript_fires_draw gd st hb hpl hr
          (fun k0 hh1 hh2 hWk => hex ⟨k0, hh1, hh2, hWk⟩)] at h
        simp only [Option.some.injEq] at h
        omega
    · exact qScript_fires_winner gd st hb hpl hr k hk1 hk2
  · constructor
    · intro h hex
      obtain ⟨k', h1, h2, hW'⟩ := hex
      rw [qScript_fires_winner gd st hb hpl hr k' h1 h2 hW'] at h
      simp only [Option.some.injEq] at h
      omega
    · intro hne
      exact qScript_fires_draw gd st hb hpl hr
        (fun k hk1 hk2 hW => hne ⟨k, hk1, hk2, hW⟩)

/-- C4 (witness): two players with pair counts (3,1) fire player 1's
winner line; counts (2,2) fire the draw line; three players with tied top
scores (2,2,0) fire the draw line. -/
theorem C4_witness :
    firstHold st31 (qScript gdP2) = some (gdP2.players + 1)
      ∧ firstHold st22 (qScript gdP2) = some (2 * gdP2.players + 1)
      ∧ firstHold stT3 (qScript gdP3) = some (2 * gdP3.players + 1) := by
  refine ⟨?_, ?_, ?_⟩
  · apply ((C4_winner_computation gdP2 st31 (by decide) (by decide)
      (by decide)).1 1 (by decide) (by decide)).mpr
    intro j h1 h2 h3
    have hub : j ≤ 2 := h2
    interval_cases j
    · exact absurd rfl h3
    · decide
  · apply (C4_winner_computation gdP2 st22 (by decide) (by decide) (by decide)).2.mpr
    rintro ⟨k, hk1, hk2, hW⟩
    have hub : k ≤ 2 := hk2
    interval_cases k
    · have := hW 2 (by decide) (by decide) (by decide)
      revert this
      decide
    · have := hW 1 (by decide) (by decide) (by decide)
      revert this
      decide
  · apply (C4_winner_computation gdP3 stT3 (by decide) (by decide) (by decide)).2.mpr
    rintro ⟨k, hk1, hk2, hW⟩
    have hub : k ≤ 3 := hk2
    interval_cases k
    · have := hW 2 (by decide) (by decide) (by decide)
      revert this
      decide
    · have := hW 1 (by decide) (by decide) (by decide)
      revert this
      decide
    · have := hW 1 (by decide) (by decide) (by decide)
      revert this
      decide

/-! ### Claim C1: the per-line token budget -/

/-- C1 (counterexample): with numPairs = 2 and players = 1, the third line
of script `shuffle0` (position decision with swap) has 9 tokens in total
(1 condition + 8 commands/jump/play), exceeding the claimed bound of 8. -/
theorem C1_counterexample :
    ("shuffle0", ScriptBody.many (shuffleState gdTwo 0)) ∈ fullScripts gdTwo
      ∧ (shuffleState gdTwo 0).getD 2 [] ∈ (ScriptBody.many (shuffleState gdTwo 0)).lines
      ∧ 8 < totalTokCount ((shuffleState gdTwo 0).getD 2 []) := by
  refine ⟨by decide, by decide, by decide⟩

/-- C1 (amended): for every game definition with numPairs ≥ 1 and
players ≥ 1, every line of every generated script has at most 8
non-condition tokens (commands + jump + narration-play); the total
including conditions can exceed 8. -/
theorem C1_amended (gd : GameDef) (hp : 1 ≤ numPairs gd) (hpl : 1 ≤ gd.players) :
    ∀ nb ∈ fullScripts gd, ∀ l ∈ nb.2.lines, nonCondCount l ≤ 8 :=
  fun nb hnb l hl => (scan_lineOK gd nb hnb l hl).1

/-- C1 (witness): the amended bound evaluated on the 9-token line of the
counterexample. -/
theorem C1_witness : nonCondCount ((shuffleState gdTwo 0).getD 2 []) ≤ 8 :=
  C1_amended gdTwo (by decide) (by decide)
    ("shuffle0", ScriptBody.many (shuffleState gdTwo 0)) (by decide)
    ((shuffleState gdTwo 0).getD 2 []) (by decide)

/-! ### Claim C3: pairing symmetry of the narration names -/

/-- C3: for every card id `c` in range, `sound` derives the narration name
from `pairs[pairIdx c]`; for `c ≤ numPairs` both `c` and `numCards+1-c`
derive from `pairs[c-1]`; and two distinct card ids share their pair index
exactly when their sum is `numCards+1` — the match test's criterion. -/
theorem C3_pair_symmetry (gd : GameDef) :
    (∀ c, 1 ≤ c → c ≤ numCards gd →
      sound gd c
        = (if gd.alternativeSounds then
             (if c ≤ numPairs gd then gd.pairs.getD (pairIdx gd c) "" ++ "_a"
              else gd.pairs.getD (pairIdx gd c) "" ++ "_b")
           else gd.pairs.getD (pairIdx gd c) ""))
    ∧ (∀ c, 1 ≤ c → c ≤ numPairs gd →
        pairIdx gd c = c - 1 ∧ pairIdx gd (numCards gd + 1 - c) = c - 1)
    ∧ (∀ c1 c2, 1 ≤ c1 → c1 ≤ numCards gd → 1 ≤ c2 → c2 ≤ numCards gd → c1 ≠ c2 →
        (pairIdx gd c1 = pairIdx gd c2 ↔ c1 + c2 = numCards gd + 1)) := by
  refine ⟨?_, ?_, ?_⟩
  · intro c h1 h2
    rw [sound, pairIdx]
    by_cases hc : c ≤ numPairs gd <;>
      by_cases ha : gd.alternativeSounds <;>
        simp [hc, ha]
  · intro c h1 h2
    have hn : ¬ (numCards gd + 1 - c ≤ numPairs gd) := by
      simp only [numCards]
      omega
    refine ⟨by rw [pairIdx, if_pos h2], ?_⟩
    rw [pairIdx, if_neg hn]
    simp only [numCards] at h2 ⊢
    omega
  · intro c1 c2 h11 h12 h21 h22 hne
    rw [pairIdx, pairIdx]
    simp only [numCards] at h12 h22 ⊢
    by_cases hc1 : c1 ≤ numPairs gd <;> by_cases hc2 : c2 ≤ numPairs gd <;>
      simp [hc1, hc2] <;> omega

/-- C3 (witness): evaluated on the two-pair game with cards 1 and 4. -/
theorem C3_witness :
    (pairIdx gdTwo 1 = 1 - 1 ∧ pairIdx gdTwo (numCards gdTwo + 1 - 1) = 1 - 1)
      ∧ (pairIdx gdTwo 1 = pairIdx gdTwo 4 ↔ 1 + 4 = numCards gdTwo + 1) :=
  ⟨(C3_pair_symmetry gdTwo).2.1 1 (by decide) (by decide),
   (C3_pair_symmetry gdTwo).2.2 1 4 (by decide) (by decide) (by decide) (by decide)
     (by decide)⟩

/-! ### Claim C5: the restart variable scan -/

/-- C5 (code evaluation at the failing input numPairs = 1, players = 1):
the register `rnd` occurs in the generated program (on the `shuffle` entry
line, a single-string script) and is not the busy flag, yet no restart
script assigns it — the scan of lines 192-197 iterates a string-valued
script character by character and so never sees its registers. -/
theorem C5_scan_misses_rnd :
    "rnd" ∈ programRegs gdOne
      ∧ "rnd" ∉ restartAssignedRegs gdOne
      ∧ "rnd" ≠ "busy" := by
  refine ⟨by decide, by decide, by decide⟩

/-! ### Claim C6: the shuffle state family -/

/-- C6 (counterexample): in the smallest game the final shuffle state
(position numCards-2 = 0) does compare: every one of its lines is guarded
by a `$pos` condition, so it does not "swap unconditionally". -/
theorem C6_counterexample :
    (shuffleState gdOne (numCards gdOne - 2)).all (fun l => l.any (fun t => t.isCond))
        = true
      ∧ shuffleState gdOne (numCards gdOne - 2) ≠ [] := by
  refine ⟨by decide, by decide⟩

/-- C6 (amended): the script table contains exactly the position-decision
states shuffle0 .. shuffle{numCards-2}; the state for position numCards-2
has no regeneration-guard line and exactly two candidate lines, each
guarded by a `$pos` comparison (`$pos==0?`, `$pos==1?`), the second
performing the swap, and both, instead of transitioning to another shuffle
state, play the start narration, jump to `idle` and play the first
player's turn prompt. -/
theorem C6_shuffle_states (gd : GameDef) (hp : 1 ≤ numPairs gd) :
    (∀ k, ((shuffleName k, ScriptBody.many (shuffleState gd k)) ∈ fullScripts gd
            ↔ k < numCards gd - 1))
    ∧ shuffleState gd (numCards gd - 2)
        = [ [Tok.cond (.ceq "pos" (.const 0)), Tok.play (gd.lang ++ "_start"),
             Tok.jump "idle", Tok.play (gd.lang ++ "_player1")],
            [Tok.cond (.ceq "pos" (.const 1))] ++ swapCmds (numCards gd - 2) (numCards gd - 1)
              ++ [Tok.play (gd.lang ++ "_start"), Tok.jump "idle",
                  Tok.play (gd.lang ++ "_player1")] ] := by
  have hcards : 2 ≤ numCards gd := by simp only [numCards]; omega
  constructor
  · intro k
    constructor
    · intro hmem
      by_contra hk
      rw [fullScripts, List.mem_append] at hmem
      rcases hmem with hmem | hmem
      swap
      · obtain ⟨chunk, _, hcase⟩ := mem_restartScriptsGo gd _ 0 _ hmem
        rcases hcase with ⟨j, he⟩ | ⟨j, _, he⟩ <;> simp at he
      rw [preScripts] at hmem
      rcases List.mem_append.mp hmem with hmem | hmem
      · rcases List.mem_append.mp hmem with hmem | hmem
        · rcases List.mem_append.mp hmem with hmem | hmem
          · rcases List.mem_append.mp hmem with hmem | hmem
            · rcases List.mem_append.mp hmem with hmem | hmem
              · simp only [List.mem_singleton, Prod.mk.injEq] at hmem
                exact shuffleName_ne_idle k hmem.1
              · rcases List.mem_map.mp hmem with ⟨i, _, he⟩
                simp only [Prod.mk.injEq] at he
                exact shuffleName_ne_pName k (i + 1) he.1.symm
            · simp only [List.mem_cons, List.not_mem_nil, or_false,
                Prod.mk.injEq] at hmem
              rcases hmem with ⟨h1, _⟩ | ⟨h1, _⟩ | ⟨h1, h2⟩
              · exact shuffleName_ne_q k h1
              · exact shuffleName_ne_r k h1
              · simp at h2
          · rcases List.mem_map.mp hmem with ⟨i, hi, he⟩
            simp only [Prod.mk.injEq] at he
            rw [List.mem_range] at hi
            have := shuffleName_inj he.1
            omega
        · rcases List.mem_map.mp hmem with ⟨i, _, he⟩
          simp only [Prod.mk.injEq] at he
          exact shuffleName_ne_cReg k i he.1.symm
      · simp only [List.mem_cons, List.not_mem_nil, or_false, Prod.mk.injEq] at hmem
        rcases hmem with ⟨h1, _⟩ | ⟨h1, _⟩ | ⟨h1, _⟩ | ⟨h1, _⟩ | ⟨h1, _⟩
        · exact shuffleName_ne_firstCard k h1
        · exact shuffleName_ne_secondCard k h1
        · exact shuffleName_ne_test k h1
        · exact shuffleName_ne_clear1 k h1
        · exact shuffleName_ne_clear2 k h1
    · intro hk
      rw [fullScripts, List.mem_append]
      left
      rw [preScripts]
      rw [List.mem_append]
      left
      rw [List.mem_append]
      left
      rw [List.mem_append]
      right
      exact List.mem_map.mpr ⟨k, List.mem_range.mpr hk, rfl⟩
  · have hguard : ¬ (numCards gd - 2 < numCards gd - 2) := by omega
    have hlen : numCards gd - (numCards gd - 2) = 2 := by omega
    have hne2 : numCards gd - 2 ≠ numCards gd - 1 := by omega
    have hsub0 : numCards gd - 2 - (numCards gd - 2) = 0 := by omega
    have hsub1 : numCards gd - 1 - (numCards gd - 2) = 1 := by omega
    have hsucc : numCards gd - 2 + 1 = numCards gd - 1 := by omega
    rw [shuffleState, if_neg hguard, hlen]
    rw [show List.range' (numCards gd - 2) 2
        = [numCards gd - 2, numCards gd - 1] from by simp [List.range', hsucc]]
    simp [shuffleSwapLine, hsub0, hsub1, hne2]

/-- C6 (witness): the state-name characterization evaluated at k = 0 for
the smallest game. -/
theorem C6_witness :
    ((shuffleName 0, ScriptBody.many (shuffleState gdOne 0)) ∈ fullScripts gdOne
      ↔ 0 < numCards gdOne - 1) :=
  (C6_shuffle_states gdOne (by decide)).1 0

/-! ### Claim C7: the regeneration guard -/

/-- C7 (counterexample): with numPairs = 2 the claimed threshold for
state shuffle0 would be 10*(numCards-0) = 40, but at $rnd = 35 the guard
does not fire (the generated threshold is 30). -/
theorem C7_counterexample :
    st35 "rnd" < ((10 * (numCards gdTwo - 0) : Nat) : Int)
      ∧ (shuffleState gdTwo 0).getD 0 [] = shuffleGuard gdTwo 0
      ∧ firstHold st35 (shuffleState gdTwo 0) ≠ some 0 := by
  refine ⟨by decide, by decide, by decide⟩

/-- C7 (amended): for every pos1 < numCards-2 the first line of
shuffle{pos1} is the regeneration guard — threshold 10*(numCards-pos1-1),
a fresh LCG step (multiplier 25173, increment 13849) and a jump back to
the same state — and it fires exactly when $rnd is below that threshold. -/
theorem C7_guard (gd : GameDef) (st : String → Int) (pos1 : Nat)
    (hpos : pos1 < numCards gd - 2) :
    (shuffleState gd pos1).getD 0 []
        = [Tok.cond (.clt "rnd" (.const (10 * (numCards gd - pos1 - 1)))),
           Tok.cmd (.cmul "random" (.const 25173)), Tok.cmd (.cadd "random" (.const 13849)),
           Tok.cmd (.cset "rnd" (.reg "random")), Tok.jump (shuffleName pos1),
           Tok.play "nop"]
    ∧ (firstHold st (shuffleState gd pos1) = some 0
        ↔ st "rnd" < ((10 * (numCards gd - pos1 - 1) : Nat) : Int)) := by
  have hss : shuffleState gd pos1
      = shuffleGuard gd pos1
          :: (List.range' pos1 (numCards gd - pos1)).map (shuffleSwapLine gd pos1) := by
    rw [shuffleState, if_pos hpos]
    rfl
  have hguard : lineHolds st (shuffleGuard gd pos1) = true
      ↔ st "rnd" < ((10 * (numCards gd - pos1 - 1) : Nat) : Int) := by
    simp [shuffleGuard, lineHolds, tokHolds, evalCond, evalExpr]
  constructor
  · rw [hss]
    rfl
  · rw [hss, firstHold_cons]
    constructor
    · intro h
      by_cases hg : lineHolds st (shuffleGuard gd pos1)
      · exact hguard.mp hg
      · rw [if_neg hg] at h
        cases hfa : firstHold st
            ((List.range' pos1 (numCards gd - pos1)).map (shuffleSwapLine gd pos1)) <;>
          rw [hfa] at h <;> simp at h
    · intro h
      rw [if_pos (hguard.mpr h)]

/-- C7 (witness): the amended guard characterization at numPairs = 2,
pos1 = 0, $rnd = 35 — both sides of the firing equivalence are false. -/
theorem C7_witness :
    firstHold st35 (shuffleState gdTwo 0) = some 0
      ↔ st35 "rnd" < ((10 * (numCards gdTwo - 0 - 1) : Nat) : Int) :=
  (C7_guard gdTwo st35 0 (by decide)).2

/-! ### Claim C8: the busy flag discipline -/

/-- C8 (counterexample): the game-over line of `clear1` assigns 0 to the
busy register although `clear1` is not the idle script. -/
theorem C8_counterexample :
    ("clear1", ScriptBody.many (clear1Script gdOne)) ∈ fullScripts gdOne
      ∧ clear1FinLine gdOne ∈ (ScriptBody.many (clear1Script gdOne)).lines
      ∧ Tok.cmd (.cset "busy" (.const 0)) ∈ clear1FinLine gdOne
      ∧ "clear1" ≠ "idle" := by
  refine ⟨by decide, by decide, by decide, by decide⟩

/-- C8 (amended): the only lines of the generated program that assign 0 to
the busy register are the idle script's line and the game-over line of
`clear1`. -/
theorem C8_amended (gd : GameDef) :
    ∀ nb ∈ fullScripts gd, ∀ l ∈ nb.2.lines,
      Tok.cmd (.cset "busy" (.const 0)) ∈ l →
        nb.1 = "idle" ∨ (nb.1 = "clear1" ∧ l = clear1FinLine gd) :=
  fun nb hnb l hl => (scan_lineOK gd nb hnb l hl).2.1

/-- C8 (witness): the amended statement applied to the clear1 game-over
line of the smallest game. -/
theorem C8_witness :
    ("clear1" : String) = "idle"
      ∨ (("clear1" : String) = "clear1" ∧ clear1FinLine gdOne = clear1FinLine gdOne) :=
  C8_amended gdOne ("clear1", ScriptBody.many (clear1Script gdOne)) (by decide)
    (clear1FinLine gdOne) (by decide) (by decide)

/-! ### Claim C9: the play-mode transform -/

/-- C9: the play-mode transform removes every `P(nop)` token; it rewrites
an adjacent jump/play pair into play-then-jump order; a line with no
no-ops and no jump-then-play adjacency is left unchanged; and on every
line of the generated program applying it twice equals applying it once. -/
theorem C9_playTransform (gd : GameDef) :
    (∀ l : List Tok, Tok.play "nop" ∉ playTransform l)
    ∧ (∀ (x y : String) (r : List Tok),
        jumpSwap (Tok.jump x :: Tok.play y :: r)
          = Tok.play y :: Tok.jump x :: jumpSwap r)
    ∧ (∀ l : List Tok, Tok.play "nop" ∉ l → hasJPAdj l = false → playTransform l = l)
    ∧ (∀ nb ∈ fullScripts gd, ∀ l ∈ nb.2.lines,
        playTransform (playTransform l) = playTransform l) := by
  refine ⟨nop_not_mem_playTransform, jumpSwap_pair, playTransform_fixpoint, ?_⟩
  intro nb hnb l hl
  exact playTransform_idem_of_okLine l (scan_lineOK gd nb hnb l hl).2.2.1

/-- C9 (witness): the fixpoint clause on a transformed line and the
idempotence clause on the clear1 game-over line of the smallest game. -/
theorem C9_witness :
    playTransform [Tok.cond (.ceq "busy" (.const 0)), Tok.play "en_draw", Tok.jump "idle"]
        = [Tok.cond (.ceq "busy" (.const 0)), Tok.play "en_draw", Tok.jump "idle"]
      ∧ playTransform (playTransform (clear1FinLine gdOne))
          = playTransform (clear1FinLine gdOne) :=
  ⟨(C9_playTransform gdOne).2.2.1 _ (by decide) (by decide),
   (C9_playTransform gdOne).2.2.2 ("clear1", ScriptBody.many (clear1Script gdOne))
     (by decide) (clear1FinLine gdOne) (by decide)⟩

/-! ### Claim C10: divisor constants -/

/-- C10: every `%=` and `/=` command emitted anywhere in the program has an
integer-literal operand that is at least 2 (hence strictly positive): the
shuffle entry divides by numCards and the per-state reduction by
numCards-pos1-1, which the emission guard keeps ≥ 2. -/
theorem C10_no_div_by_zero (gd : GameDef) (hp : 1 ≤ numPairs gd) :
    ∀ nb ∈ fullScripts gd, ∀ l ∈ nb.2.lines, ∀ r e,
      (Tok.cmd (.cmod r e) ∈ l ∨ Tok.cmd (.cdiv r e) ∈ l) →
      ∃ n, e = Expr.const n ∧ 2 ≤ n ∧ 0 < n := by
  intro nb hnb l hl r e hm
  obtain ⟨n, hn, h2⟩ := (scan_lineOK gd nb hnb l hl).2.2.2 r e hm hp
  exact ⟨n, hn, h2, by omega⟩

/-- C10 (witness): the operand of the shuffle entry's `%=` in the smallest
game is a positive literal. -/
theorem C10_witness : (2 : Nat) ≤ numCards gdOne := by
  obtain ⟨n, hn, h2, _⟩ := C10_no_div_by_zero gdOne (by decide)
    ("shuffle", ScriptBody.one (shuffleEntry gdOne)) (by decide)
    (shuffleEntry gdOne) (by decide) "pos" (Expr.const (numCards gdOne))
    (Or.inl (by decide))
  injection hn with h
  omega

end TTMemory
